import Mathlib

/-!
# Tab view-model of the value editor (`src/modules/value-editor/viewmodel.cpp`)

A shallow embedding of `ValueEditor::ViewModel`.  The view-model owns an ordered list of
key-model handles (one per open tab), a current tab index and a pending new-key request.
Every member function becomes a function on that state which also returns the signals it
emits and the calls it makes on its collaborators, in program order.

Three things the file uses are declared outside it.  The enumerators of `ViewModel::Roles`
are a parameter (`Roles`); the getters and operations of a key model are parameters giving
their value or outcome; the `ValueViewModel` constructor is modelled from the specification
(`newValueViewModel`).  The Qt 5 members the code calls (`QList`, `QString::arg`) follow Qt's
documented behaviour.

Machine integers (`int`) are embedded in `Int`.  The only arithmetic in the file is
`m_currentTabIndex+1` in `loadModel`; `removeAt_succ_int32` below shows that 32-bit
wrap-around of that sum cannot change what `removeAt` does.
-/

namespace ValueEditor

/-! ## Handles -/

/-- A `QSharedPointer<Model>`: `none` is the null pointer, `some a` refers to the model object
with identity `a`.  Two pointers are equal when they refer to the same object. -/
abbrev ModelPtr := Option Nat

/-- A `QSharedPointer<RedisClient::Connection>`, with the same reading as `ModelPtr`. -/
abbrev ConnectionPtr := Option Nat

/-- The referent of a `ConnectionsTree::KeyItem&`: object identity plus the two getters that
`openTab` reads. -/
structure KeyItem where
  id : Nat
  getFullPath : String
  getDbIndex : Int
  deriving DecidableEq, Repr

/-- A `QModelIndex` as built by `index`: only the row is ever inspected. -/
structure QModelIndex where
  row : Int
  deriving DecidableEq, Repr

/-! ## The Qt 5 `QList` operations used by the view-model -/

namespace QList

variable {α : Type}

/-- The value an `int` holds after 32-bit two's-complement wrap-around of the integer `x`. -/
def wrapInt32 (x : Int) : Int := (x + 2147483648) % 4294967296 - 2147483648

/-- The member `count()`. -/
def count (l : List α) : Int := (l.length : Int)

/-- The member `at(i)` (`at` is a reserved word here, hence the name); the index must be valid,
`none` stands for the failed precondition. -/
def itemAt (l : List α) (i : Int) : Option α :=
  if 0 ≤ i ∧ i < count l then l[i.toNat]? else none

/-- The member `append(value)`. -/
def append (l : List α) (value : α) : List α := l ++ [value]

/-- The member `insert(i, value)`: an index `i <= 0` prepends, an index `i >= size()` appends. -/
def insert (l : List α) (i : Int) (value : α) : List α :=
  if i ≤ 0 then value :: l
  else if count l ≤ i then l ++ [value]
  else l.insertIdx i.toNat value

/-- The member `removeAt(i)`: nothing happens unless `0 <= i < size()`. -/
def removeAt (l : List α) (i : Int) : List α :=
  if 0 ≤ i ∧ i < count l then l.eraseIdx i.toNat else l

/-- The backward scan of `lastIndexOf`: looks at positions `n-1, n-2, ..., 0` in turn and
returns the first position holding `value`, or `-1`. -/
def lastIndexOfFrom [DecidableEq α] (l : List α) (value : α) : Nat → Int
  | 0 => -1
  | n + 1 => if l[n]? = some value then (n : Int) else lastIndexOfFrom l value n

/-- The member `lastIndexOf(value)` with the default `from = -1` (start at the last item). -/
def lastIndexOf [DecidableEq α] (l : List α) (value : α) : Int :=
  lastIndexOfFrom l value l.length

end QList

/-! ## Signals and collaborator calls -/

/-- What a member function does that is visible outside the view-model: the signals it emits
and the calls it makes on the key model, the tree key and the key factory. -/
inductive Event where
  /-- the call `beginInsertRows(QModelIndex(), first, last)` -/
  | beginInsertRows (first last : Int)
  /-- the call `endInsertRows()` -/
  | endInsertRows
  /-- the call `beginRemoveRows(QModelIndex(), first, last)` -/
  | beginRemoveRows (first last : Int)
  /-- the call `endRemoveRows()` -/
  | endRemoveRows
  /-- signal `emit dataChanged(index(top, 0), index(bottom, 0))` -/
  | dataChanged (top bottom : Int)
  /-- signal `emit keyError(i, message)` -/
  | keyError (i : Int) (message : String)
  /-- signal `emit closeWelcomeTab()` -/
  | closeWelcomeTab
  /-- signal `emit replaceTab(i)` -/
  | replaceTab (i : Int)
  /-- signal `emit newKeyDialog(dbId, keyPrefix)` -/
  | newKeyDialog (dbId keyText : String)
  /-- the call `value->setKeyName(newKeyName)` on model `model` -/
  | setKeyName (model : Nat) (newKeyName : String)
  /-- the call `value->removeKey()` on model `model` -/
  | removeKey (model : Nat)
  /-- the call `key.setRemoved()` on tree key `key` -/
  | setRemoved (key : Nat)
  /-- the call `m_keyFactory->loadKey(connection, fullPath, dbIndex, callback)` -/
  | loadKey (connection : ConnectionPtr) (fullPath : String) (dbIndex : Int)
  /-- the call `m_keyFactory->addKey(connection, keyName, dbIndex, keyType, row)` -/
  | addKey (connection : ConnectionPtr) (keyName : String) (dbIndex : Int) (keyType : String)
      (row : List (String × String))
  deriving DecidableEq, Repr

/-- Whether the event is a call on a key model (`setKeyName` or `removeKey`). -/
def Event.isModelCall : Event → Bool
  | Event.setKeyName _ _ => true
  | Event.removeKey _ => true
  | _ => false

/-- Whether the event is a `keyError` signal. -/
def Event.isKeyError : Event → Bool
  | Event.keyError _ _ => true
  | _ => false

/-- Whether the event is a `dataChanged` signal. -/
def Event.isDataChanged : Event → Bool
  | Event.dataChanged _ _ => true
  | _ => false

/-- Whether the event belongs to a rows-inserted or rows-removed notification. -/
def Event.isRowsNotification : Event → Bool
  | Event.beginInsertRows _ _ => true
  | Event.endInsertRows => true
  | Event.beginRemoveRows _ _ => true
  | Event.endRemoveRows => true
  | _ => false

/-- An exception raised by a key-model operation. -/
inductive Thrown where
  /-- a `Model::Exception` whose `what()` is the given text -/
  | modelException (what : String)
  /-- an exception of any other type -/
  | other (what : String)
  deriving DecidableEq, Repr

/-- How a call on a key model ends. -/
inductive CallOutcome where
  | returns
  | throws (e : Thrown)
  deriving DecidableEq, Repr

/-- An operation without defined behaviour in C++. -/
inductive Fault where
  /-- member call through a null `QSharedPointer` -/
  | nullDereference
  /-- use of a reference to a `KeyItem` that has been destroyed -/
  | danglingReference (key : Nat)
  deriving DecidableEq, Repr

/-- How a member function or handler ends. -/
inductive Exit where
  /-- normal return to the caller -/
  | returned
  /-- an exception leaves the function -/
  | propagated (e : Thrown)
  /-- an undefined operation was reached; the run is cut there -/
  | undefined (f : Fault)
  deriving DecidableEq, Repr

/-- The record of one run: the state reached, what was emitted on the way, and how the run
ended.  When the run ends in `Exit.undefined`, state and events are those accumulated up to the
undefined operation. -/
structure Run (σ : Type) where
  state : σ
  events : List Event
  exit : Exit

/-- Sequencing of two runs: the second starts only if the first returned normally. -/
def Run.andThen {σ : Type} (r : Run σ) (f : σ → Run σ) : Run σ :=
  match r.exit with
  | Exit.returned =>
    let r2 := f r.state
    { state := r2.state, events := r.events ++ r2.events, exit := r2.exit }
  | _ => r

/-! ## The view-model state and its member functions -/

/-- The data members of `ValueEditor::ViewModel` that the member functions read or write
(`m_keyFactory` is fixed at construction and only ever called). -/
structure ViewModel where
  m_valueModels : List ModelPtr
  m_currentTabIndex : Int
  m_newKeyRequest : ConnectionPtr × Int
  deriving DecidableEq, Repr

namespace ViewModel

/-- The constructor: empty tab list, `m_currentTabIndex(0)`, default-constructed pair. -/
def new : ViewModel :=
  { m_valueModels := [], m_currentTabIndex := 0, m_newKeyRequest := (none, 0) }

/-- The member `index(row, column, parent)`: `createIndex(row, 0)`. -/
def index (row : Int) (_column : Int) : QModelIndex := { row := row }

/-- The member `rowCount`. -/
def rowCount (s : ViewModel) : Int := QList.count s.m_valueModels

/-- The member `isIndexValid`. -/
def isIndexValid (s : ViewModel) (index : QModelIndex) : Bool :=
  decide (0 ≤ index.row) && decide (index.row < s.rowCount)

/-- The member `closeTab(i)`.  The three statements of the `try` block raise no
`Model::Exception`, so its `catch` clause (which would emit `keyError`) never runs. -/
def closeTab (i : Int) (s : ViewModel) : ViewModel × List Event :=
  if !s.isIndexValid (index i 0) then (s, [])
  else
    ({ s with m_valueModels := QList.removeAt s.m_valueModels i },
      [Event.beginRemoveRows i i, Event.endRemoveRows])

/-- The member `setCurrentTab(i)`. -/
def setCurrentTab (i : Int) (s : ViewModel) : ViewModel :=
  { s with m_currentTabIndex := i }

/-- The member `loadModel(model, openNewTab)`. -/
def loadModel (model : ModelPtr) (openNewTab : Bool) (s : ViewModel) : ViewModel × List Event :=
  let welcome : List Event :=
    if QList.count s.m_valueModels = 0 then [Event.closeWelcomeTab] else []
  if openNewTab || decide (QList.count s.m_valueModels = 0) then
    ({ s with m_valueModels := QList.append s.m_valueModels model },
      welcome ++ [Event.beginInsertRows (QList.count s.m_valueModels) (QList.count s.m_valueModels),
                  Event.endInsertRows])
  else
    let inserted := QList.insert s.m_valueModels s.m_currentTabIndex model
    let removed := QList.removeAt inserted (s.m_currentTabIndex + 1)
    ({ s with m_valueModels := removed },
      welcome ++ [Event.replaceTab s.m_currentTabIndex,
                  Event.dataChanged s.m_currentTabIndex s.m_currentTabIndex])

/-- The member `removeModel(model)`. -/
def removeModel (model : ModelPtr) (s : ViewModel) : ViewModel × List Event :=
  let i := QList.lastIndexOf s.m_valueModels model
  if i = -1 then (s, [])
  else
    ({ s with m_valueModels := QList.removeAt s.m_valueModels i },
      [Event.beginRemoveRows i i, Event.endRemoveRows])

/-- The member `renameKey(i, newKeyName)`.  `setKeyName` tells how the call
`value->setKeyName(newKeyName)` on the model at row `i` ends. -/
def renameKey (setKeyName : Nat → String → CallOutcome) (i : Int) (newKeyName : String)
    (s : ViewModel) : Run ViewModel :=
  if !s.isIndexValid (index i 0) then { state := s, events := [], exit := Exit.returned }
  else
    match QList.itemAt s.m_valueModels i with
    | some (some value) =>
      match setKeyName value newKeyName with
      | CallOutcome.returns =>
        { state := s,
          events := [Event.setKeyName value newKeyName, Event.dataChanged i i],
          exit := Exit.returned }
      | CallOutcome.throws (Thrown.modelException what) =>
        { state := s,
          events := [Event.setKeyName value newKeyName,
                     Event.keyError i ("Can't rename key: " ++ what)],
          exit := Exit.returned }
      | CallOutcome.throws e =>
        { state := s, events := [Event.setKeyName value newKeyName], exit := Exit.propagated e }
    | _ => { state := s, events := [], exit := Exit.undefined Fault.nullDereference }

/-- The member `removeKey(i)`.  `removeKeyCall` tells how the call `value->removeKey()` on the
model at row `i` ends. -/
def removeKey (removeKeyCall : Nat → CallOutcome) (i : Int) (s : ViewModel) : Run ViewModel :=
  if !s.isIndexValid (index i 0) then { state := s, events := [], exit := Exit.returned }
  else
    match QList.itemAt s.m_valueModels i with
    | some (some value) =>
      match removeKeyCall value with
      | CallOutcome.returns =>
        { state := s, events := [Event.removeKey value], exit := Exit.returned }
      | CallOutcome.throws (Thrown.modelException what) =>
        { state := s,
          events := [Event.removeKey value, Event.keyError i ("Can't remove key: " ++ what)],
          exit := Exit.returned }
      | CallOutcome.throws e =>
        { state := s, events := [Event.removeKey value], exit := Exit.propagated e }
    | _ => { state := s, events := [], exit := Exit.undefined Fault.nullDereference }

end ViewModel

/-! ## Tree keys, connections and the completion handler of `openTab` -/

/-- A connection made by the completion handler of `openTab`, with the values its lambda
captured. -/
inductive Slot where
  /-- lambda connected to `Model::removed` of `keyModel`; it captured `keyModel` and `&key` -/
  | modelRemoved (keyModel : ModelPtr) (key : KeyItem)
  /-- lambda connected to `KeyItem::destroyed` of `key`; it captured `keyModel` -/
  | keyDestroyed (key : KeyItem) (keyModel : ModelPtr)
  deriving DecidableEq, Repr

/-- The view-model together with the objects its handlers reach: the connections made so far,
the tree keys on which `setRemoved()` has run, and the tree keys already destroyed. -/
structure World where
  vm : ViewModel
  connections : List Slot
  removedKeys : List Nat
  destroyedKeys : List Nat
  deriving DecidableEq, Repr

namespace World

/-- A fresh view-model with no connection and no tree key touched. -/
def new : World :=
  { vm := ViewModel.new, connections := [], removedKeys := [], destroyedKeys := [] }

/-- A step of the view-model alone, seen as a run of the world. -/
def liftVm (w : World) (r : ViewModel × List Event) : Run World :=
  { state := { w with vm := r.1 }, events := r.2, exit := Exit.returned }

/-- The call `key.setRemoved()` through the captured reference `&key`: it sets the removed flag
of the tree key, and is undefined once that tree key has been destroyed. -/
def setRemoved (key : KeyItem) (w : World) : Run World :=
  if key.id ∈ w.destroyedKeys then
    { state := w, events := [], exit := Exit.undefined (Fault.danglingReference key.id) }
  else
    { state := { w with removedKeys := key.id :: w.removedKeys },
      events := [Event.setRemoved key.id], exit := Exit.returned }

/-- The body of the lambda connected to `Model::removed` (lines 24-28):
`removeModel(keyModel); key.setRemoved();`. -/
def onModelRemoved (keyModel : ModelPtr) (key : KeyItem) (w : World) : Run World :=
  (w.liftVm (w.vm.removeModel keyModel)).andThen (setRemoved key)

/-- The body of the lambda connected to `KeyItem::destroyed` (lines 31-33):
`removeModel(keyModel);`. -/
def onKeyDestroyed (keyModel : ModelPtr) (w : World) : Run World :=
  w.liftVm (w.vm.removeModel keyModel)

/-- Running the lambda of a connection. -/
def invoke (slot : Slot) (w : World) : Run World :=
  match slot with
  | Slot.modelRemoved keyModel key => onModelRemoved keyModel key w
  | Slot.keyDestroyed _ keyModel => onKeyDestroyed keyModel w

/-- The two `QObject::connect` calls of the completion handler.  The second one takes `&key`
as sender, which is undefined once that tree key has been destroyed. -/
def connectLifecycle (keyModel : ModelPtr) (key : KeyItem) (w : World) : Run World :=
  if key.id ∈ w.destroyedKeys then
    { state := { w with connections := w.connections ++ [Slot.modelRemoved keyModel key] },
      events := [], exit := Exit.undefined (Fault.danglingReference key.id) }
  else
    { state := { w with connections := w.connections ++
                  [Slot.modelRemoved keyModel key, Slot.keyDestroyed key keyModel] },
      events := [], exit := Exit.returned }

/-- The completion handler that `openTab` passes to `loadKey` (lines 16-34); `inNewTab` and
`key` are its captures, `keyModel` is what the factory hands over. -/
def onKeyLoaded (inNewTab : Bool) (key : KeyItem) (keyModel : ModelPtr) (w : World) : Run World :=
  if keyModel.isNone then { state := w, events := [], exit := Exit.returned }
  else (w.liftVm (w.vm.loadModel keyModel inNewTab)).andThen (connectLifecycle keyModel key)

/-- The member `openTab(connection, key, inNewTab)`: it only asks the factory to load the key;
the factory later runs `onKeyLoaded inNewTab key` with the model it produced. -/
def openTab (connection : ConnectionPtr) (key : KeyItem) (_inNewTab : Bool) (w : World) :
    Run World :=
  { state := w, events := [Event.loadKey connection key.getFullPath key.getDbIndex],
    exit := Exit.returned }

/-- Running a list of connections one after the other, in connection order. -/
def invokeAll : List Slot → World → Run World
  | [], w => { state := w, events := [], exit := Exit.returned }
  | slot :: rest, w => (invoke slot w).andThen (invokeAll rest)

/-- The signal `Model::removed` emitted by model `model`: every lambda connected to it runs. -/
def emitModelRemoved (model : Nat) (w : World) : Run World :=
  invokeAll (w.connections.filter fun slot =>
    match slot with
    | Slot.modelRemoved keyModel _ => decide (keyModel = some model)
    | Slot.keyDestroyed _ _ => false) w

/-- The destruction of tree key `key`: its `destroyed` signal runs every lambda connected to it,
after which the object is gone and the connections it was the sender of are dropped. -/
def destroyKey (key : Nat) (w : World) : Run World :=
  (invokeAll (w.connections.filter fun slot =>
    match slot with
    | Slot.modelRemoved _ _ => false
    | Slot.keyDestroyed k _ => decide (k.id = key)) w).andThen fun w1 =>
  { state := { w1 with
      connections := w1.connections.filter fun slot =>
        match slot with
        | Slot.modelRemoved _ _ => true
        | Slot.keyDestroyed k _ => decide (k.id ≠ key),
      destroyedKeys := key :: w1.destroyedKeys },
    events := [], exit := Exit.returned }

end World

end ValueEditor

/-! ## The row read interface -/

namespace ValueEditor

/-- The values a `QVariant` built by `data` can hold.  All integral payloads (`int`, the state
enum, `qulonglong`) are kept as an integer; a list payload is the `QVariantList` of the given
strings. -/
inductive QVariant where
  /-- the default-constructed, invalid variant `QVariant()` -/
  | invalid
  | integer (value : Int)
  | text (value : String)
  | boolean (value : Bool)
  | textList (value : List String)
  deriving DecidableEq, Repr

/-- The enumerators of `ViewModel::Roles`.  The enum is declared in `viewmodel.h`, which is not
among the sources, so the values of the enumerators are a parameter. -/
structure Roles where
  keyIndex : Int
  keyNameRole : Int
  keyTTL : Int
  keyType : Int
  state : Int
  showValueNavigation : Int
  columnNames : Int
  count : Int
  keyValue : Int
  deriving DecidableEq, Repr

/-- The nine enumerators in declaration order. -/
def Roles.ids (roles : Roles) : List Int :=
  [roles.keyIndex, roles.keyNameRole, roles.keyTTL, roles.keyType, roles.state,
   roles.showValueNavigation, roles.columnNames, roles.count, roles.keyValue]

/-- What the getters of one key model return at the time of the call. -/
structure ModelData where
  getKeyName : String
  getTTL : Int
  getType : String
  getState : Int
  isMultiRow : Bool
  getColumnNames : List String
  rowsCount : Nat
  deriving DecidableEq, Repr

namespace ViewModel

/-- The member `data(index, role)`, a `const` member: it reads the tab list and the getters of
the model at the row (`models` gives them per model object) and returns a variant.  The `switch`
is the chain of its `case` labels, which C++ requires to be pairwise distinct. -/
def data (roles : Roles) (models : Nat → ModelData) (index : QModelIndex) (role : Int)
    (s : ViewModel) : QVariant :=
  if !s.isIndexValid index then QVariant.invalid
  else
    match QList.itemAt s.m_valueModels index.row with
    | some (some model) =>
      if role = roles.keyIndex then QVariant.integer index.row
      else if role = roles.keyNameRole then QVariant.text (models model).getKeyName
      else if role = roles.keyTTL then QVariant.integer (models model).getTTL
      else if role = roles.keyType then QVariant.text (models model).getType
      else if role = roles.state then QVariant.integer (models model).getState
      else if role = roles.showValueNavigation then QVariant.boolean (models model).isMultiRow
      else if role = roles.columnNames then QVariant.textList (models model).getColumnNames
      else if role = roles.count then QVariant.integer ((models model).rowsCount : Int)
      else QVariant.invalid
    | _ => QVariant.invalid

/-- The assignment `roles[key] = value` on a `QHash<int, QByteArray>` kept as the list of its
entries: the value of an existing key is replaced, a new key gets a new entry. -/
def hashAssign (hash : List (Int × String)) (key : Int) (value : String) : List (Int × String) :=
  if hash.any (fun entry => decide (entry.1 = key)) then
    hash.map fun entry => if entry.1 = key then (key, value) else entry
  else hash ++ [(key, value)]

/-- The lookup `hash.value(key)` on the list of entries. -/
def hashValue (hash : List (Int × String)) (key : Int) : Option String :=
  (hash.find? fun entry => decide (entry.1 = key)).map Prod.snd

/-- The member `roleNames()`, a `const` member that reads no data member. -/
def roleNames (roles : Roles) (_s : ViewModel) : List (Int × String) :=
  let h0 : List (Int × String) := []
  let h1 := hashAssign h0 roles.keyIndex "keyIndex"
  let h2 := hashAssign h1 roles.keyNameRole "keyName"
  let h3 := hashAssign h2 roles.keyTTL "keyTtl"
  let h4 := hashAssign h3 roles.keyType "keyType"
  let h5 := hashAssign h4 roles.state "keyState"
  let h6 := hashAssign h5 roles.showValueNavigation "showValueNavigation"
  let h7 := hashAssign h6 roles.columnNames "columnNames"
  let h8 := hashAssign h7 roles.count "valuesCount"
  hashAssign h8 roles.keyValue "keyValue"

end ViewModel

end ValueEditor

/-! ## `QString::arg` and the new-key workflow -/

namespace ValueEditor

namespace QString

/-- A string as `QString::arg` reads it: plain characters and place markers.  A place marker is
`%`, an optional `L`, and one or two digits; `raw` is its text. -/
inductive Piece where
  | text (c : Char)
  | marker (number : Nat) (locale : Bool) (raw : List Char)
  deriving DecidableEq, Repr

/-- Where the scan for place markers stands. -/
inductive Scan where
  /-- outside a place marker -/
  | normal
  /-- after `%`, or after `%L` when `locale` is set -/
  | percent (locale : Bool)
  /-- after the first digit `digit` (of value `d`) of a place marker -/
  | digit (locale : Bool) (d : Nat) (digit : Char)
  deriving DecidableEq, Repr

/-- The value of a decimal digit (`QChar::digitValue`, for the digits `0` to `9`). -/
def digitValue (c : Char) : Option Nat :=
  if c.isDigit then some (c.toNat - 48) else none

/-- The text read so far of a place marker that has no digit yet. -/
def markerStart (locale : Bool) : List Char :=
  if locale then ['%', 'L'] else ['%']

/-- The scan of `findArgEscapes`: a `%` opens a place marker, an `L` right after it marks it as
localised, one digit and, if present, a second digit give its number; when no digit follows, the
characters read are plain text and the scan goes on from the character that was not a digit. -/
def scanFrom : Scan → List Char → List Piece
  | Scan.normal, [] => []
  | Scan.normal, c :: rest =>
    if c = '%' then scanFrom (Scan.percent false) rest
    else Piece.text c :: scanFrom Scan.normal rest
  | Scan.percent locale, [] => (markerStart locale).map Piece.text
  | Scan.percent locale, c :: rest =>
    if c = 'L' ∧ locale = false then scanFrom (Scan.percent true) rest
    else
      match digitValue c with
      | some d => scanFrom (Scan.digit locale d c) rest
      | none =>
        (markerStart locale).map Piece.text ++
          (if c = '%' then scanFrom (Scan.percent false) rest
           else Piece.text c :: scanFrom Scan.normal rest)
  | Scan.digit locale d digit, [] => [Piece.marker d locale (markerStart locale ++ [digit])]
  | Scan.digit locale d digit, c :: rest =>
    match digitValue c with
    | some d2 =>
      Piece.marker (10 * d + d2) locale (markerStart locale ++ [digit, c]) ::
        scanFrom Scan.normal rest
    | none =>
      Piece.marker d locale (markerStart locale ++ [digit]) ::
        (if c = '%' then scanFrom (Scan.percent false) rest
         else Piece.text c :: scanFrom Scan.normal rest)

/-- The lowest place-marker number among the pieces, if there is a place marker. -/
def lowestMarker : List Piece → Option Nat
  | [] => none
  | Piece.text _ :: rest => lowestMarker rest
  | Piece.marker number _ _ :: rest =>
    match lowestMarker rest with
    | none => some number
    | some other => some (min number other)

/-- The text a piece becomes when the place markers numbered `lowest` are replaced: by
`localised` when the marker has the `L`, by `plain` otherwise. -/
def Piece.replace (lowest : Nat) (plain localised : List Char) : Piece → List Char
  | Piece.text c => [c]
  | Piece.marker number locale raw =>
    if number = lowest then (if locale then localised else plain) else raw

/-- One call of `arg` on the characters of a string: every occurrence of the lowest-numbered
place marker is replaced; a string without place marker is returned as it is. -/
def argChars (s plain localised : List Char) : List Char :=
  match lowestMarker (scanFrom Scan.normal s) with
  | none => s
  | some lowest =>
    ((scanFrom Scan.normal s).map (Piece.replace lowest plain localised)).flatten

/-- The call `s.arg(a)` with a string argument. -/
def arg (s a : String) : String := String.mk (argChars s.data a.data a.data)

/-- The call `s.arg(n)` with an `int` argument: base 10, and the locale's rendering of the
number (`localised`) for place markers with the `L`. -/
def argInt (s : String) (n : Int) (localised : String) : String :=
  String.mk (argChars s.data (toString n).data localised.data)

end QString

/-- One call `openNewKeyDialog(connection, dbIndex, keyPrefix)`. -/
structure NewKeyCall where
  connection : ConnectionPtr
  dbIndex : Int
  keyText : String
  deriving DecidableEq, Repr

namespace ViewModel

/-- The local `dbId` of `openNewKeyDialog`:
`QString("%1:db%2").arg(connection->getConfig().name()).arg(dbIndex)`. -/
def dbId (name : String) (dbIndex : Int) (localised : String) : String :=
  QString.argInt (QString.arg "%1:db%2" name) dbIndex localised

/-- The member `openNewKeyDialog(connection, dbIndex, keyPrefix)`.  `configName` gives
`getConfig().name()` of each connection object and `localeNumber` the locale's rendering of a
number. -/
def openNewKeyDialog (configName : Nat → String) (localeNumber : Int → String)
    (connection : ConnectionPtr) (dbIndex : Int) (keyText : String) (s : ViewModel) :
    ViewModel × List Event :=
  match connection, decide (dbIndex < 0) with
  | some c, false =>
    ({ s with m_newKeyRequest := (connection, dbIndex) },
      [Event.newKeyDialog (dbId (configName c) dbIndex (localeNumber dbIndex)) keyText])
  | _, _ => (s, [])

/-- The member `addKey(keyName, keyType, row)`. -/
def addKey (keyName keyType : String) (row : List (String × String)) (s : ViewModel) :
    ViewModel × List Event :=
  (s, [Event.addKey s.m_newKeyRequest.1 keyName s.m_newKeyRequest.2 keyType row])

/-- Whether a call passes the guard of `openNewKeyDialog`: a connection that is not null and
a database index that is not negative. -/
def passesGuard (call : NewKeyCall) : Bool :=
  call.connection.isSome && decide (0 ≤ call.dbIndex)

/-- The pair of the most recent call of a sequence that passed the guard, or `initial` when no
call of the sequence did. -/
def mostRecentRequest (calls : List NewKeyCall) (initial : ConnectionPtr × Int) :
    ConnectionPtr × Int :=
  match (calls.filter passesGuard).getLast? with
  | some call => (call.connection, call.dbIndex)
  | none => initial

/-- The signal a call that passed the guard emits. -/
def signalOf (configName : Nat → String) (localeNumber : Int → String)
    (call : NewKeyCall) : Event :=
  Event.newKeyDialog
    (dbId (match call.connection with
           | some c => configName c
           | none => "") call.dbIndex (localeNumber call.dbIndex))
    call.keyText

/-- A sequence of `openNewKeyDialog` calls, one after the other. -/
def openNewKeyDialogs (configName : Nat → String) (localeNumber : Int → String) :
    List NewKeyCall → ViewModel → ViewModel × List Event
  | [], s => (s, [])
  | call :: rest, s =>
    let first := openNewKeyDialog configName localeNumber call.connection call.dbIndex
      call.keyText s
    let others := openNewKeyDialogs configName localeNumber rest first.1
    (others.1, first.2 ++ others.2)

end ViewModel

end ValueEditor

/-! ## Value editors -/

namespace ValueEditor

/-- The `QObject` trees below the key models: `children a` is what `findChildren<QObject *>()`
returns for model `a`, in Qt's order, and `nextObject` is the identity the next object created
with `new` gets. -/
structure Objects where
  children : Nat → List Nat
  nextObject : Nat

/-- What a call of `getValue` leaves behind: the pointer returned (`none` is `nullptr`), the
object trees, and how the call ended. -/
structure Fetched where
  value : Option Nat
  objects : Objects
  exit : Exit

namespace ViewModel

/-- Modelled from the spec: the constructor `ValueViewModel(model)`, whose file
(`valueviewmodel.cpp`) is not among the sources.  The spec has `getValue` find an editor that
already exists "as a child of the model", so the new editor object is created as a child of
the model: it joins the children of that model, after those already there. -/
def newValueViewModel (model : Nat) (o : Objects) : Nat × Objects :=
  (o.nextObject,
    { children := fun a => if a = model then o.children a ++ [o.nextObject] else o.children a,
      nextObject := o.nextObject + 1 })

/-- The member `getValue(i)`. -/
def getValue (i : Int) (s : ViewModel) (o : Objects) : Fetched :=
  if !s.isIndexValid (index i 0) then { value := none, objects := o, exit := Exit.returned }
  else
    match QList.itemAt s.m_valueModels i with
    | some (some model) =>
      let valueEditors := o.children model
      if valueEditors.isEmpty then
        { value := some (newValueViewModel model o).1, objects := (newValueViewModel model o).2,
          exit := Exit.returned }
      else { value := valueEditors[0]?, objects := o, exit := Exit.returned }
    | _ => { value := none, objects := o, exit := Exit.undefined Fault.nullDereference }

/-- The object trees after `n` calls of `getValue(i)` in a row. -/
def getValueTimes (i : Int) (s : ViewModel) : Nat → Objects → Objects
  | 0, o => o
  | n + 1, o => getValueTimes i s n (s.getValue i o).objects

end ViewModel

end ValueEditor

/-! ## Sample states -/

namespace ValueEditor

/-- Three open tabs holding the models 10, 11 and 12; the last tab is current. -/
def threeTabs : ViewModel :=
  { m_valueModels := [some 10, some 11, some 12], m_currentTabIndex := 2,
    m_newKeyRequest := (none, 0) }

/-- Two open tabs holding the models 10 and 11; the first tab is current. -/
def twoTabs : ViewModel :=
  { m_valueModels := [some 10, some 11], m_currentTabIndex := 0, m_newKeyRequest := (none, 0) }

/-- A tree key with object identity 3. -/
def sampleKey : KeyItem := { id := 3, getFullPath := "user:1", getDbIndex := 0 }

/-- A tree key with object identity 4. -/
def otherKey : KeyItem := { id := 4, getFullPath := "user:2", getDbIndex := 0 }

/-- A world around `twoTabs` in which no tree key has been touched. -/
def twoTabsWorld : World :=
  { vm := twoTabs, connections := [], removedKeys := [], destroyedKeys := [] }

/-- The world around `twoTabs` after `setCurrentTab(-1)`. -/
def negativeIndexWorld : World :=
  { twoTabsWorld with vm := twoTabs.setCurrentTab (-1) }

/-- A run from the initial state in which the factory hands over the same model object twice:
three keys are loaded into new tabs and the first and third handle are equal, so the tab list
is `[10, 11, 10]`. -/
def repeatedLoad : Run World :=
  ((World.new.onKeyLoaded true sampleKey (some 10)).andThen
      (World.onKeyLoaded true otherKey (some 11))).andThen
      (World.onKeyLoaded true sampleKey (some 10))

/-- A run of public operations from the initial state: two keys are loaded into new tabs, the
second tab is made current, and that tab is closed.  One tab is left and the stored current tab
index is still 1. -/
def closedLastTab : Run World :=
  (((World.new.onKeyLoaded true sampleKey (some 10)).andThen
      (World.onKeyLoaded true sampleKey (some 11))).andThen
      (fun w => w.liftVm (w.vm.setCurrentTab 1, []))).andThen
      (fun w => w.liftVm (w.vm.closeTab 1))

/-- A run from the initial state: a key is loaded into a tab, which installs the two lifecycle
connections, and its tree key is then destroyed. -/
def keyDestroyedFirst : Run World :=
  (World.new.onKeyLoaded false sampleKey (some 10)).andThen (World.destroyKey sampleKey.id)

/-- The run `keyDestroyedFirst` followed by a load, for another tree key, in which the factory
hands over the same model object again: the model is back in the tab list while the lambda of
the first load, with its reference to the destroyed tree key, is still connected. -/
def reloadedAfterKeyDestroyed : Run World :=
  keyDestroyedFirst.andThen (World.onKeyLoaded true otherKey (some 10))

/-- A run from the initial state: a key is loaded into a tab, which installs the two lifecycle
connections, and its model then signals `removed`. -/
def modelRemovedFirst : Run World :=
  (World.new.onKeyLoaded false sampleKey (some 10)).andThen (World.emitModelRemoved 10)

/-- Two rows, the second of which holds a null handle. -/
def nullTab : ViewModel :=
  { m_valueModels := [some 10, none], m_currentTabIndex := 0, m_newKeyRequest := (none, 0) }

/-- Role identifiers numbered upwards from 257. -/
def sampleRoles : Roles :=
  { keyIndex := 257, keyNameRole := 258, keyTTL := 259, keyType := 260, state := 261,
    showValueNavigation := 262, columnNames := 263, count := 264, keyValue := 265 }

/-- Getter values shared by every sample model: a hash with two fields and three rows. -/
def sampleModels : Nat → ModelData := fun _ =>
  { getKeyName := "user:1", getTTL := -1, getType := "hash", getState := 0,
    isMultiRow := true, getColumnNames := ["key", "value"], rowsCount := 3 }

/-- Object trees in which no model has a child yet. -/
def noObjects : Objects := { children := fun _ => [], nextObject := 100 }

/-- A model whose rename and remove operations raise `Model::Exception("ERR")`. -/
def failingCall : CallOutcome := CallOutcome.throws (Thrown.modelException "ERR")

end ValueEditor

/-! ## Facts about the list operations -/

namespace ValueEditor

namespace QList

variable {α : Type}

theorem removeAt_of_lt (l : List α) (k : Nat) (h : k < l.length) :
    removeAt l (k : Int) = l.eraseIdx k := by
  unfold removeAt count
  have h1 : (0 : Int) ≤ (k : Int) ∧ (k : Int) < (l.length : Int) := by omega
  rw [if_pos h1, Int.toNat_natCast]

theorem removeAt_of_not_lt (l : List α) (i : Int) (h : i < 0 ∨ (l.length : Int) ≤ i) :
    removeAt l i = l := by
  unfold removeAt count
  have h1 : ¬ ((0 : Int) ≤ i ∧ i < (l.length : Int)) := by omega
  rw [if_neg h1]

theorem insert_of_le (l : List α) (k : Nat) (h : k ≤ l.length) (value : α) :
    insert l (k : Int) value = l.insertIdx k value := by
  unfold insert count
  by_cases hk : k = 0
  · subst hk
    simp
  · have h1 : ¬ ((k : Int) ≤ 0) := by omega
    rw [if_neg h1]
    by_cases hl : k = l.length
    · subst hl
      simp [List.insertIdx_length_self]
    · have h2 : ¬ ((l.length : Int) ≤ (k : Int)) := by omega
      rw [if_neg h2, Int.toNat_natCast]

theorem eraseIdx_succ_insertIdx (value : α) :
    ∀ (l : List α) (k : Nat), k < l.length →
      (l.insertIdx k value).eraseIdx (k + 1) = l.set k value
  | [], k, h => by simp at h
  | x :: xs, 0, _ => by simp
  | x :: xs, k + 1, h => by
      have h1 : k < xs.length := by simpa using h
      simp [List.insertIdx_succ_cons, eraseIdx_succ_insertIdx value xs k h1]

end QList

end ValueEditor

namespace ValueEditor

namespace QList

variable {α : Type}

theorem lastIndexOfFrom_eq_neg_one [DecidableEq α] (l : List α) (value : α) :
    ∀ n : Nat, (∀ j : Nat, j < n → l[j]? ≠ some value) → lastIndexOfFrom l value n = -1
  | 0, _ => rfl
  | n + 1, h => by
      unfold lastIndexOfFrom
      rw [if_neg (h n (Nat.lt_succ_self n))]
      exact lastIndexOfFrom_eq_neg_one l value n (fun j hj => h j (Nat.lt_succ_of_lt hj))

theorem lastIndexOfFrom_eq [DecidableEq α] (l : List α) (value : α) (k : Nat)
    (hk : l[k]? = some value) :
    ∀ n : Nat, k < n → (∀ j : Nat, k < j → j < n → l[j]? ≠ some value) →
      lastIndexOfFrom l value n = (k : Int)
  | 0, h, _ => absurd h (Nat.not_lt_zero k)
  | n + 1, h, hlast => by
      unfold lastIndexOfFrom
      by_cases hkn : k = n
      · subst hkn
        rw [if_pos hk]
      · have hlt : k < n := by omega
        rw [if_neg (hlast n hlt (Nat.lt_succ_self n))]
        exact lastIndexOfFrom_eq l value k hk n hlt
          (fun j h1 h2 => hlast j h1 (Nat.lt_succ_of_lt h2))

theorem lastIndexOf_eq_neg_one [DecidableEq α] (l : List α) (value : α)
    (h : ∀ j : Nat, l[j]? ≠ some value) : lastIndexOf l value = -1 :=
  lastIndexOfFrom_eq_neg_one l value l.length (fun j _ => h j)

theorem lastIndexOf_eq [DecidableEq α] (l : List α) (value : α) (k : Nat)
    (hk : l[k]? = some value) (hlast : ∀ j : Nat, k < j → l[j]? ≠ some value) :
    lastIndexOf l value = (k : Int) := by
  have hlen : k < l.length := by
    rcases Nat.lt_or_ge k l.length with h | h
    · exact h
    · rw [List.getElem?_eq_none h] at hk
      exact absurd hk (by simp)
  exact lastIndexOfFrom_eq l value k hk l.length hlen (fun j h1 _ => hlast j h1)

end QList

/-! ## Facts about the member functions -/

namespace ViewModel

theorem isIndexValid_iff (s : ViewModel) (i : Int) :
    s.isIndexValid (index i 0) = true ↔ 0 ≤ i ∧ i < (s.m_valueModels.length : Int) := by
  simp [isIndexValid, index, rowCount, QList.count]

/-- What `removeModel` does when `model` is in the list and `k` is the greatest index holding
it. -/
theorem removeModel_of_last (s : ViewModel) (model : ModelPtr) (k : Nat)
    (hk : s.m_valueModels[k]? = some model)
    (hlast : ∀ j : Nat, k < j → s.m_valueModels[j]? ≠ some model) :
    s.removeModel model =
      ({ s with m_valueModels := s.m_valueModels.eraseIdx k },
        [Event.beginRemoveRows (k : Int) (k : Int), Event.endRemoveRows]) := by
  have hlen : k < s.m_valueModels.length := by
    rcases Nat.lt_or_ge k s.m_valueModels.length with h | h
    · exact h
    · rw [List.getElem?_eq_none h] at hk
      exact absurd hk (by simp)
  unfold removeModel
  simp only [QList.lastIndexOf_eq s.m_valueModels model k hk hlast]
  have hne : ¬ ((k : Int) = -1) := by omega
  rw [if_neg hne, QList.removeAt_of_lt _ _ hlen]

/-- What `removeModel` does when `model` is not in the list. -/
theorem removeModel_of_absent (s : ViewModel) (model : ModelPtr)
    (h : ∀ j : Nat, s.m_valueModels[j]? ≠ some model) :
    s.removeModel model = (s, []) := by
  unfold removeModel
  simp only [QList.lastIndexOf_eq_neg_one s.m_valueModels model h]
  rfl

end ViewModel

end ValueEditor

/-! ## Closing a tab -/

namespace ValueEditor

namespace ViewModel

/-- C1: for every tab list and every `i` with `0 <= i < count`, `closeTab(i)` yields the list
with exactly the entry at `i` removed: the count decreases by exactly 1, every entry below `i`
is unchanged, every entry previously at `j > i` is now at `j-1`; the only things emitted are the
one rows-removed notification for row `i` (`beginRemoveRows(i, i)`, `endRemoveRows()`), so no
error event; the current tab index and the pending new-key request are untouched. -/
theorem closeTab_removes_exactly_row (s : ViewModel) (i : Int)
    (h0 : 0 ≤ i) (hlt : i < s.rowCount) :
    (s.closeTab i).1.m_valueModels = s.m_valueModels.eraseIdx i.toNat ∧
    (s.closeTab i).1.rowCount = s.rowCount - 1 ∧
    (∀ j : Nat, (j : Int) < i → (s.closeTab i).1.m_valueModels[j]? = s.m_valueModels[j]?) ∧
    (∀ j : Nat, i < (j : Int) → (s.closeTab i).1.m_valueModels[j - 1]? = s.m_valueModels[j]?) ∧
    (s.closeTab i).2 = [Event.beginRemoveRows i i, Event.endRemoveRows] ∧
    (∀ (r : Int) (message : String), Event.keyError r message ∉ (s.closeTab i).2) ∧
    (s.closeTab i).1.m_currentTabIndex = s.m_currentTabIndex ∧
    (s.closeTab i).1.m_newKeyRequest = s.m_newKeyRequest := by
  have hlen : i < (s.m_valueModels.length : Int) := by
    simpa [rowCount, QList.count] using hlt
  obtain ⟨k, rfl⟩ := Int.eq_ofNat_of_zero_le h0
  have hk : k < s.m_valueModels.length := by omega
  have hvalid : s.isIndexValid (index (k : Int) 0) = true :=
    (isIndexValid_iff s k).2 ⟨h0, hlen⟩
  have hrun : s.closeTab (k : Int) =
      ({ s with m_valueModels := s.m_valueModels.eraseIdx k },
        [Event.beginRemoveRows (k : Int) (k : Int), Event.endRemoveRows]) := by
    unfold closeTab
    rw [hvalid, QList.removeAt_of_lt _ _ hk]
    rfl
  rw [hrun]
  refine ⟨by simp, ?_, ?_, ?_, rfl, ?_, rfl, rfl⟩
  · simp only [rowCount, QList.count, List.length_eraseIdx_of_lt hk]
    omega
  · intro j hj
    exact List.getElem?_eraseIdx_of_lt _ _ _ (by omega)
  · intro j hj
    have hjk : k ≤ j - 1 := by omega
    have := List.getElem?_eraseIdx_of_ge s.m_valueModels k (j - 1) hjk
    have hj1 : j - 1 + 1 = j := by omega
    rw [hj1] at this
    exact this
  · intro r message hmem
    simp at hmem

/-- C1 at a concrete input: closing the middle one of three tabs. -/
theorem closeTab_removes_exactly_row_witness :
    (0 : Int) ≤ 1 ∧ (1 : Int) < threeTabs.rowCount ∧
    (threeTabs.closeTab 1).1.m_valueModels = [some 10, some 12] ∧
    (threeTabs.closeTab 1).2 = [Event.beginRemoveRows 1 1, Event.endRemoveRows] :=
  ⟨by decide, by decide,
   (closeTab_removes_exactly_row threeTabs 1 (by decide) (by decide)).1,
   (closeTab_removes_exactly_row threeTabs 1 (by decide) (by decide)).2.2.2.2.1⟩

end ViewModel

end ValueEditor

/-! ## Loading a model into a tab -/

namespace ValueEditor

namespace QList

variable {α : Type}

/-- With `int` indices and an `int`-sized list, computing `c + 1` with 32-bit wrap-around gives
`removeAt` the same effect as computing it exactly. -/
theorem removeAt_succ_int32 (l : List α) (c : Int)
    (hc : -2147483648 ≤ c ∧ c ≤ 2147483647) (hl : (l.length : Int) ≤ 2147483647) :
    removeAt l (wrapInt32 (c + 1)) = removeAt l (c + 1) := by
  by_cases hmax : c = 2147483647
  · subst hmax
    have hw : wrapInt32 (2147483647 + 1) = -2147483648 := by decide
    rw [hw, removeAt_of_not_lt l (-2147483648) (Or.inl (by decide)),
      removeAt_of_not_lt l (2147483647 + 1) (Or.inr (by omega))]
  · have hw : wrapInt32 (c + 1) = c + 1 := by
      unfold wrapInt32
      omega
    rw [hw]

end QList

namespace ViewModel

/-- What `loadModel` does when asked for a new tab. -/
theorem loadModel_newTab (s : ViewModel) (model : ModelPtr) :
    s.loadModel model true =
      ({ s with m_valueModels := s.m_valueModels ++ [model] },
        (if QList.count s.m_valueModels = 0 then [Event.closeWelcomeTab] else []) ++
          [Event.beginInsertRows (QList.count s.m_valueModels) (QList.count s.m_valueModels),
           Event.endInsertRows]) := by
  simp [loadModel, QList.append]

/-- What `loadModel` does on a non-empty list when asked to reuse the current tab. -/
theorem loadModel_sameTab (s : ViewModel) (model : ModelPtr) (hne : s.m_valueModels ≠ []) :
    s.loadModel model false =
      ({ s with m_valueModels :=
                  QList.removeAt (QList.insert s.m_valueModels s.m_currentTabIndex model)
                    (s.m_currentTabIndex + 1) },
        [Event.replaceTab s.m_currentTabIndex,
         Event.dataChanged s.m_currentTabIndex s.m_currentTabIndex]) := by
  have hcount : ¬ (QList.count s.m_valueModels = 0) := by
    simpa [QList.count] using hne
  simp [loadModel, hcount]

/-- What `loadModel` does when asked to reuse the current tab and the stored current tab index
is a valid row: the insert and the removal together replace the entry at that row. -/
theorem loadModel_sameTab_of_valid (s : ViewModel) (model : ModelPtr)
    (h0 : 0 ≤ s.m_currentTabIndex) (hlt : s.m_currentTabIndex < s.rowCount) :
    s.loadModel model false =
      ({ s with m_valueModels := s.m_valueModels.set s.m_currentTabIndex.toNat model },
        [Event.replaceTab s.m_currentTabIndex,
         Event.dataChanged s.m_currentTabIndex s.m_currentTabIndex]) := by
  have hlen : s.m_currentTabIndex < (s.m_valueModels.length : Int) := by
    simpa [rowCount, QList.count] using hlt
  obtain ⟨c, hc⟩ := Int.eq_ofNat_of_zero_le h0
  have hck : c < s.m_valueModels.length := by omega
  have hne : s.m_valueModels ≠ [] := by
    intro hnil
    rw [hnil] at hck
    simp at hck
  have hlist : QList.removeAt (QList.insert s.m_valueModels (c : Int) model) ((c : Int) + 1)
      = s.m_valueModels.set c model := by
    rw [QList.insert_of_le _ _ (Nat.le_of_lt hck)]
    have hlen2 : c + 1 < (s.m_valueModels.insertIdx c model).length := by
      rw [List.length_insertIdx _ _ (Nat.le_of_lt hck)]
      omega
    have hcast : ((c : Int) + 1) = ((c + 1 : Nat) : Int) := by omega
    rw [hcast, QList.removeAt_of_lt _ _ hlen2, QList.eraseIdx_succ_insertIdx _ _ _ hck]
  rw [loadModel_sameTab s model hne, hc, hlist, Int.toNat_natCast]

end ViewModel

namespace World

/-- The completion handler with a non-null model leaves the view-model as `loadModel` left it
and emits what `loadModel` emitted, whatever becomes of the two `connect` calls. -/
theorem onKeyLoaded_some (w : World) (inNewTab : Bool) (key : KeyItem) (m : Nat) :
    (w.onKeyLoaded inNewTab key (some m)).state.vm = (w.vm.loadModel (some m) inNewTab).1 ∧
    (w.onKeyLoaded inNewTab key (some m)).events = (w.vm.loadModel (some m) inNewTab).2 := by
  unfold onKeyLoaded
  by_cases hkey : key.id ∈ w.destroyedKeys
  · simp [Run.andThen, liftVm, connectLifecycle, hkey]
  · simp [Run.andThen, liftVm, connectLifecycle, hkey]

/-- The completion handler with a non-null model and a live tree key returns normally and adds
exactly the two lifecycle connections. -/
theorem onKeyLoaded_connects (w : World) (inNewTab : Bool) (key : KeyItem) (m : Nat)
    (hkey : key.id ∉ w.destroyedKeys) :
    (w.onKeyLoaded inNewTab key (some m)).exit = Exit.returned ∧
    (w.onKeyLoaded inNewTab key (some m)).state.connections =
      w.connections ++ [Slot.modelRemoved (some m) key, Slot.keyDestroyed key (some m)] := by
  unfold onKeyLoaded
  simp [Run.andThen, liftVm, connectLifecycle, hkey]

end World

end ValueEditor

namespace ValueEditor

namespace World

/-- C2: for every tab list, every stored current tab index and every non-null loaded model `m`,
the completion handler of `openTab` with `inNewTab = true` appends: the resulting list is the old
list followed by `m`, so the count grows by exactly 1, `m` sits at row `old count` and all
earlier rows are unchanged; what is emitted is the optional close-welcome signal followed by the
one rows-inserted notification for row `old count`, and no replace-tab event. -/
theorem onKeyLoaded_newTab_appends (w : World) (key : KeyItem) (m : Nat) :
    (w.onKeyLoaded true key (some m)).state.vm.m_valueModels = w.vm.m_valueModels ++ [some m] ∧
    (w.onKeyLoaded true key (some m)).state.vm.rowCount = w.vm.rowCount + 1 ∧
    (w.onKeyLoaded true key (some m)).state.vm.m_valueModels[w.vm.m_valueModels.length]?
      = some (some m) ∧
    (∀ j : Nat, j < w.vm.m_valueModels.length →
      (w.onKeyLoaded true key (some m)).state.vm.m_valueModels[j]? = w.vm.m_valueModels[j]?) ∧
    (w.onKeyLoaded true key (some m)).events =
      (if w.vm.rowCount = 0 then [Event.closeWelcomeTab] else []) ++
        [Event.beginInsertRows w.vm.rowCount w.vm.rowCount, Event.endInsertRows] ∧
    (∀ c : Int, Event.replaceTab c ∉ (w.onKeyLoaded true key (some m)).events) ∧
    (w.onKeyLoaded true key (some m)).state.vm.m_currentTabIndex = w.vm.m_currentTabIndex ∧
    (key.id ∉ w.destroyedKeys → (w.onKeyLoaded true key (some m)).exit = Exit.returned) := by
  obtain ⟨hvm, hev⟩ := onKeyLoaded_some w true key m
  have hexit : key.id ∉ w.destroyedKeys →
      (w.onKeyLoaded true key (some m)).exit = Exit.returned :=
    fun hkey => (onKeyLoaded_connects w true key m hkey).1
  rw [hvm, hev, ViewModel.loadModel_newTab]
  refine ⟨rfl, ?_, ?_, ?_, rfl, ?_, rfl, hexit⟩
  · simp [ViewModel.rowCount, QList.count]
  · simp
  · intro j hj
    simp [List.getElem?_append_left hj]
  · intro c hmem
    by_cases h0 : QList.count w.vm.m_valueModels = 0 <;> simp [h0] at hmem

/-- C3, as amended: for every state whose stored current tab index `c` is a valid row
(`0 <= c < count`, so the tab list is non-empty), the completion handler of `openTab` with
`inNewTab = false` and a non-null model `m` replaces at `c`: the tab count is unchanged, the row
at `c` is `m`, and the stored current tab index stays `c`. -/
theorem onKeyLoaded_sameTab_replaces_valid_current (w : World) (key : KeyItem) (m : Nat)
    (h0 : 0 ≤ w.vm.m_currentTabIndex) (hlt : w.vm.m_currentTabIndex < w.vm.rowCount) :
    (w.onKeyLoaded false key (some m)).state.vm.rowCount = w.vm.rowCount ∧
    QList.itemAt (w.onKeyLoaded false key (some m)).state.vm.m_valueModels
      w.vm.m_currentTabIndex = some (some m) ∧
    (w.onKeyLoaded false key (some m)).state.vm.m_currentTabIndex = w.vm.m_currentTabIndex := by
  have hlen : w.vm.m_currentTabIndex < (w.vm.m_valueModels.length : Int) := by
    simpa [ViewModel.rowCount, QList.count] using hlt
  have hck : w.vm.m_currentTabIndex.toNat < w.vm.m_valueModels.length := by omega
  obtain ⟨hvm, _⟩ := onKeyLoaded_some w false key m
  rw [hvm, ViewModel.loadModel_sameTab_of_valid w.vm (some m) h0 hlt]
  refine ⟨?_, ?_, rfl⟩
  · simp [ViewModel.rowCount, QList.count]
  · have hrange : 0 ≤ w.vm.m_currentTabIndex ∧ w.vm.m_currentTabIndex <
        QList.count (w.vm.m_valueModels.set w.vm.m_currentTabIndex.toNat (some m)) := by
      simp only [QList.count, List.length_set]
      exact ⟨h0, hlen⟩
    simp only [QList.itemAt, if_pos hrange]
    simp [List.getElem?_set, hck]

/-- C3, as amended, at a concrete input: two tabs, current tab index 0. -/
theorem onKeyLoaded_sameTab_replaces_valid_current_witness :
    (0 : Int) ≤ twoTabsWorld.vm.m_currentTabIndex ∧
    twoTabsWorld.vm.m_currentTabIndex < twoTabsWorld.vm.rowCount ∧
    (twoTabsWorld.onKeyLoaded false sampleKey (some 12)).state.vm.rowCount = 2 ∧
    QList.itemAt (twoTabsWorld.onKeyLoaded false sampleKey (some 12)).state.vm.m_valueModels 0
      = some (some 12) :=
  ⟨by decide, by decide,
   (onKeyLoaded_sameTab_replaces_valid_current twoTabsWorld sampleKey 12
      (by decide) (by decide)).1,
   (onKeyLoaded_sameTab_replaces_valid_current twoTabsWorld sampleKey 12
      (by decide) (by decide)).2.1⟩

/-- C3 as stated fails at a state the public operations reach: two tabs are opened, the second
is made current and closed, and a key is then loaded with `inNewTab = false`.  The tab list is
non-empty and the stored current tab index is 1 with one tab left; the completion handler makes
the count grow from 1 to 2 and keeps the old entry, while announcing `replaceTab(1)`.  With two
tabs and the stored index -1 the handler leaves the list as it was, without the new model. -/
theorem onKeyLoaded_sameTab_stale_index_counterexample :
    closedLastTab.exit = Exit.returned ∧
    closedLastTab.state.vm.m_valueModels = [some 10] ∧
    closedLastTab.state.vm.m_currentTabIndex = 1 ∧
    closedLastTab.state.vm.rowCount = 1 ∧
    (closedLastTab.state.onKeyLoaded false sampleKey (some 12)).state.vm.m_valueModels
      = [some 10, some 12] ∧
    (closedLastTab.state.onKeyLoaded false sampleKey (some 12)).state.vm.rowCount = 2 ∧
    (closedLastTab.state.onKeyLoaded false sampleKey (some 12)).state.vm.rowCount
      ≠ closedLastTab.state.vm.rowCount ∧
    (closedLastTab.state.onKeyLoaded false sampleKey (some 12)).events
      = [Event.replaceTab 1, Event.dataChanged 1 1] ∧
    (closedLastTab.state.onKeyLoaded false sampleKey (some 12)).exit = Exit.returned ∧
    negativeIndexWorld.vm.m_valueModels = [some 10, some 11] ∧
    negativeIndexWorld.vm.m_currentTabIndex = -1 ∧
    (negativeIndexWorld.onKeyLoaded false sampleKey (some 12)).state.vm.m_valueModels
      = [some 10, some 11] ∧
    (negativeIndexWorld.onKeyLoaded false sampleKey (some 12)).events
      = [Event.replaceTab (-1), Event.dataChanged (-1) (-1)] := by
  decide

end World

end ValueEditor

namespace ValueEditor

namespace ViewModel

/-- C4: for every tab list of length `n >= 1`, every current tab index `c` with `0 <= c < n`
and every non-null model `m`, `loadModel(m, false)` has the net effect of one replacement: the
resulting list is the old list with the entry at `c` replaced by `m`, every other entry
unchanged at its index, length still `n`; it emits exactly `replaceTab(c)` followed by
`dataChanged` for row `c`, hence no close-welcome signal and no rows-inserted or rows-removed
notification. -/
theorem loadModel_sameTab_replaces_current (s : ViewModel) (m : Nat)
    (h0 : 0 ≤ s.m_currentTabIndex) (hlt : s.m_currentTabIndex < s.rowCount) :
    (s.loadModel (some m) false).1.m_valueModels
      = s.m_valueModels.set s.m_currentTabIndex.toNat (some m) ∧
    (s.loadModel (some m) false).1.rowCount = s.rowCount ∧
    (s.loadModel (some m) false).1.m_valueModels[s.m_currentTabIndex.toNat]? = some (some m) ∧
    (∀ j : Nat, j ≠ s.m_currentTabIndex.toNat →
      (s.loadModel (some m) false).1.m_valueModels[j]? = s.m_valueModels[j]?) ∧
    (s.loadModel (some m) false).2
      = [Event.replaceTab s.m_currentTabIndex,
         Event.dataChanged s.m_currentTabIndex s.m_currentTabIndex] ∧
    Event.closeWelcomeTab ∉ (s.loadModel (some m) false).2 ∧
    (∀ a b : Int, Event.beginInsertRows a b ∉ (s.loadModel (some m) false).2 ∧
      Event.beginRemoveRows a b ∉ (s.loadModel (some m) false).2) ∧
    Event.endInsertRows ∉ (s.loadModel (some m) false).2 ∧
    Event.endRemoveRows ∉ (s.loadModel (some m) false).2 ∧
    (s.loadModel (some m) false).1.m_currentTabIndex = s.m_currentTabIndex := by
  have hlen : s.m_currentTabIndex < (s.m_valueModels.length : Int) := by
    simpa [rowCount, QList.count] using hlt
  have hck : s.m_currentTabIndex.toNat < s.m_valueModels.length := by omega
  rw [loadModel_sameTab_of_valid s (some m) h0 hlt]
  refine ⟨rfl, ?_, ?_, ?_, rfl, ?_, ?_, ?_, ?_, rfl⟩
  · simp [rowCount, QList.count]
  · simp [List.getElem?_set, hck]
  · intro j hj
    simp [List.getElem?_set, Ne.symm hj]
  · simp
  · intro a b
    simp
  · simp
  · simp

/-- C4 at the spec's scenario: two tabs, current tab index 0. -/
theorem loadModel_sameTab_replaces_current_witness :
    (0 : Int) ≤ twoTabs.m_currentTabIndex ∧ twoTabs.m_currentTabIndex < twoTabs.rowCount ∧
    (twoTabs.loadModel (some 12) false).1.m_valueModels = [some 12, some 11] ∧
    (twoTabs.loadModel (some 12) false).2 = [Event.replaceTab 0, Event.dataChanged 0 0] :=
  ⟨by decide, by decide,
   (loadModel_sameTab_replaces_current twoTabs 12 (by decide) (by decide)).1,
   (loadModel_sameTab_replaces_current twoTabs 12 (by decide) (by decide)).2.2.2.2.1⟩

end ViewModel

end ValueEditor

/-! ## The lifecycle handlers -/

namespace ValueEditor

namespace World

/-- After the entry at the only index holding `model` is erased, `model` is absent. -/
theorem absent_after_eraseIdx (l : List ModelPtr) (model : ModelPtr) (k : Nat)
    (huniq : ∀ j : Nat, l[j]? = some model → j = k) :
    ∀ j : Nat, (l.eraseIdx k)[j]? ≠ some model := by
  intro j hj
  rw [List.getElem?_eraseIdx] at hj
  by_cases hjk : j < k
  · rw [if_pos hjk] at hj
    have := huniq j hj
    omega
  · rw [if_neg hjk] at hj
    have := huniq (j + 1) hj
    omega

/-- C5, as amended: for every tab list in which the loaded model `m` occurs at index `k` and at
no other index, and a tree key that is still alive, the model-removed handler installed by
`openTab` removes exactly row `k` (count decreases by 1, the other entries keep their order,
one rows-removed notification for row `k`) and marks the tree key removed; running the same
handler again leaves the tab list unchanged and emits no rows-removed notification. -/
theorem onModelRemoved_removes_unique_row (w : World) (m : Nat) (key : KeyItem) (k : Nat)
    (hk : w.vm.m_valueModels[k]? = some (some m))
    (huniq : ∀ j : Nat, w.vm.m_valueModels[j]? = some (some m) → j = k)
    (halive : key.id ∉ w.destroyedKeys) :
    (w.onModelRemoved (some m) key).exit = Exit.returned ∧
    (w.onModelRemoved (some m) key).state.vm.m_valueModels = w.vm.m_valueModels.eraseIdx k ∧
    (w.onModelRemoved (some m) key).state.vm.m_valueModels
      = w.vm.m_valueModels.take k ++ w.vm.m_valueModels.drop (k + 1) ∧
    (w.onModelRemoved (some m) key).state.vm.rowCount = w.vm.rowCount - 1 ∧
    (w.onModelRemoved (some m) key).events
      = [Event.beginRemoveRows (k : Int) (k : Int), Event.endRemoveRows,
         Event.setRemoved key.id] ∧
    key.id ∈ (w.onModelRemoved (some m) key).state.removedKeys ∧
    (((w.onModelRemoved (some m) key).state.onModelRemoved (some m) key).state.vm
      = (w.onModelRemoved (some m) key).state.vm) ∧
    ((w.onModelRemoved (some m) key).state.onModelRemoved (some m) key).events
      = [Event.setRemoved key.id] ∧
    ((w.onModelRemoved (some m) key).state.onModelRemoved (some m) key).exit
      = Exit.returned := by
  have hlen : k < w.vm.m_valueModels.length := by
    rcases Nat.lt_or_ge k w.vm.m_valueModels.length with h | h
    · exact h
    · rw [List.getElem?_eq_none h] at hk
      exact absurd hk (by simp)
  have hlast : ∀ j : Nat, k < j → w.vm.m_valueModels[j]? ≠ some (some m) := by
    intro j hj heq
    have := huniq j heq
    omega
  have hfirst : w.onModelRemoved (some m) key =
      { state := { w with vm := { w.vm with m_valueModels := w.vm.m_valueModels.eraseIdx k },
                          removedKeys := key.id :: w.removedKeys },
        events := [Event.beginRemoveRows (k : Int) (k : Int), Event.endRemoveRows,
                   Event.setRemoved key.id],
        exit := Exit.returned } := by
    unfold onModelRemoved
    rw [ViewModel.removeModel_of_last w.vm (some m) k hk hlast]
    simp [Run.andThen, liftVm, setRemoved, halive]
  have hsecond : ∀ w1 : World, w1.vm.m_valueModels = w.vm.m_valueModels.eraseIdx k →
      w1.destroyedKeys = w.destroyedKeys →
      w1.onModelRemoved (some m) key =
        { state := { w1 with removedKeys := key.id :: w1.removedKeys },
          events := [Event.setRemoved key.id], exit := Exit.returned } := by
    intro w1 hl hd
    have habs : ∀ j : Nat, w1.vm.m_valueModels[j]? ≠ some (some m) := by
      rw [hl]
      exact absent_after_eraseIdx _ _ k huniq
    have halive1 : key.id ∉ w1.destroyedKeys := by
      rw [hd]
      exact halive
    unfold onModelRemoved
    rw [ViewModel.removeModel_of_absent w1.vm (some m) habs]
    simp [Run.andThen, liftVm, setRemoved, halive1]
  have h2 := hsecond (w.onModelRemoved (some m) key).state (by rw [hfirst]) (by rw [hfirst])
  rw [h2, hfirst]
  refine ⟨rfl, rfl, ?_, ?_, rfl, ?_, rfl, rfl, rfl⟩
  · exact List.eraseIdx_eq_take_drop_succ _ _
  · simp only [ViewModel.rowCount, QList.count, List.length_eraseIdx_of_lt hlen]
    omega
  · simp

/-- C5, as amended, at a concrete input: model 11 occupies row 1 of two tabs. -/
theorem onModelRemoved_removes_unique_row_witness :
    twoTabsWorld.vm.m_valueModels[1]? = some (some 11) ∧
    (twoTabsWorld.onModelRemoved (some 11) sampleKey).state.vm.m_valueModels = [some 10] ∧
    (twoTabsWorld.onModelRemoved (some 11) sampleKey).events
      = [Event.beginRemoveRows 1 1, Event.endRemoveRows, Event.setRemoved 3] :=
  ⟨by decide,
   (onModelRemoved_removes_unique_row twoTabsWorld 11 sampleKey 1 (by decide)
      (by
        intro j hj
        match j, hj with
        | 0, h => exact absurd h (by decide)
        | 1, _ => rfl
        | n + 2, h => exact absurd h (by simp [twoTabsWorld, twoTabs]))
      (by decide)).2.1,
   (onModelRemoved_removes_unique_row twoTabsWorld 11 sampleKey 1 (by decide)
      (by
        intro j hj
        match j, hj with
        | 0, h => exact absurd h (by decide)
        | 1, _ => rfl
        | n + 2, h => exact absurd h (by simp [twoTabsWorld, twoTabs]))
      (by decide)).2.2.2.2.1⟩

/-- C5 as stated fails when the handle occurs twice: after `repeatedLoad` model 10 is present
at index 0 of `[10, 11, 10]`, yet the handler removes row 2 and leaves `[10, 11]`, not
`[11, 10]`; and running the handler again removes row 0 as well instead of leaving the list
unchanged.  It also fails when the tree key of the handler is already destroyed: after
`reloadedAfterKeyDestroyed` model 10 is present at index 0, the handler of the first load removes
the row and then reaches `setRemoved()` on the destroyed tree key, which is not marked. -/
theorem onModelRemoved_repeated_handle_counterexample :
    repeatedLoad.exit = Exit.returned ∧
    repeatedLoad.state.vm.m_valueModels = [some 10, some 11, some 10] ∧
    repeatedLoad.state.vm.m_valueModels[0]? = some (some 10) ∧
    sampleKey.id ∉ repeatedLoad.state.destroyedKeys ∧
    (repeatedLoad.state.onModelRemoved (some 10) sampleKey).state.vm.m_valueModels
      = [some 10, some 11] ∧
    (repeatedLoad.state.onModelRemoved (some 10) sampleKey).state.vm.m_valueModels
      ≠ repeatedLoad.state.vm.m_valueModels.eraseIdx 0 ∧
    (repeatedLoad.state.onModelRemoved (some 10) sampleKey).events
      = [Event.beginRemoveRows 2 2, Event.endRemoveRows, Event.setRemoved 3] ∧
    ((repeatedLoad.state.onModelRemoved (some 10) sampleKey).state.onModelRemoved
        (some 10) sampleKey).state.vm.m_valueModels = [some 11] ∧
    ((repeatedLoad.state.onModelRemoved (some 10) sampleKey).state.onModelRemoved
        (some 10) sampleKey).events
      = [Event.beginRemoveRows 0 0, Event.endRemoveRows, Event.setRemoved 3] ∧
    reloadedAfterKeyDestroyed.exit = Exit.returned ∧
    reloadedAfterKeyDestroyed.state.vm.m_valueModels = [some 10] ∧
    Slot.modelRemoved (some 10) sampleKey ∈ reloadedAfterKeyDestroyed.state.connections ∧
    sampleKey.id ∈ reloadedAfterKeyDestroyed.state.destroyedKeys ∧
    (reloadedAfterKeyDestroyed.state.onModelRemoved (some 10) sampleKey).exit
      = Exit.undefined (Fault.danglingReference sampleKey.id) ∧
    (reloadedAfterKeyDestroyed.state.onModelRemoved (some 10) sampleKey).state.removedKeys
      = [] := by
  decide

end World

end ValueEditor

namespace ValueEditor

namespace World

/-- C6, as amended: for every tab list in which the loaded model `m` occurs at index `k` and at
no greater index, the tree-key-destroyed handler installed by `openTab` removes exactly row `k`
(count decreases by 1, the other entries keep their order) and performs no operation on the
tree key: `setRemoved` is not called and no tree key's removed flag changes. -/
theorem onKeyDestroyed_removes_last_row (w : World) (m : Nat) (k : Nat)
    (hk : w.vm.m_valueModels[k]? = some (some m))
    (hlast : ∀ j : Nat, k < j → w.vm.m_valueModels[j]? ≠ some (some m)) :
    (w.onKeyDestroyed (some m)).exit = Exit.returned ∧
    (w.onKeyDestroyed (some m)).state.vm.m_valueModels = w.vm.m_valueModels.eraseIdx k ∧
    (w.onKeyDestroyed (some m)).state.vm.m_valueModels
      = w.vm.m_valueModels.take k ++ w.vm.m_valueModels.drop (k + 1) ∧
    (w.onKeyDestroyed (some m)).state.vm.rowCount = w.vm.rowCount - 1 ∧
    (w.onKeyDestroyed (some m)).events
      = [Event.beginRemoveRows (k : Int) (k : Int), Event.endRemoveRows] ∧
    (∀ key : Nat, Event.setRemoved key ∉ (w.onKeyDestroyed (some m)).events) ∧
    (w.onKeyDestroyed (some m)).state.removedKeys = w.removedKeys := by
  have hlen : k < w.vm.m_valueModels.length := by
    rcases Nat.lt_or_ge k w.vm.m_valueModels.length with h | h
    · exact h
    · rw [List.getElem?_eq_none h] at hk
      exact absurd hk (by simp)
  have hrun : w.onKeyDestroyed (some m) =
      { state := { w with vm := { w.vm with m_valueModels := w.vm.m_valueModels.eraseIdx k } },
        events := [Event.beginRemoveRows (k : Int) (k : Int), Event.endRemoveRows],
        exit := Exit.returned } := by
    unfold onKeyDestroyed
    rw [ViewModel.removeModel_of_last w.vm (some m) k hk hlast]
    rfl
  rw [hrun]
  refine ⟨rfl, rfl, ?_, ?_, rfl, ?_, rfl⟩
  · exact List.eraseIdx_eq_take_drop_succ _ _
  · simp only [ViewModel.rowCount, QList.count, List.length_eraseIdx_of_lt hlen]
    omega
  · intro key hmem
    simp at hmem

/-- C6, as amended, at a concrete input: model 10 occupies row 0 of two tabs. -/
theorem onKeyDestroyed_removes_last_row_witness :
    twoTabsWorld.vm.m_valueModels[0]? = some (some 10) ∧
    (twoTabsWorld.onKeyDestroyed (some 10)).state.vm.m_valueModels = [some 11] ∧
    (twoTabsWorld.onKeyDestroyed (some 10)).events
      = [Event.beginRemoveRows 0 0, Event.endRemoveRows] :=
  ⟨by decide,
   (onKeyDestroyed_removes_last_row twoTabsWorld 10 0 (by decide)
      (by
        intro j hj
        match j, hj with
        | 1, _ => decide
        | n + 2, _ => simp [twoTabsWorld, twoTabs])).2.1,
   (onKeyDestroyed_removes_last_row twoTabsWorld 10 0 (by decide)
      (by
        intro j hj
        match j, hj with
        | 1, _ => decide
        | n + 2, _ => simp [twoTabsWorld, twoTabs])).2.2.2.2.1⟩

/-- C6 as stated fails when the handle occurs twice: after `repeatedLoad` model 10 is present
at index 0 of `[10, 11, 10]`, yet the tree-key-destroyed handler removes row 2 and leaves `[10, 11]`,
not `[11, 10]`. -/
theorem onKeyDestroyed_repeated_handle_counterexample :
    repeatedLoad.exit = Exit.returned ∧
    repeatedLoad.state.vm.m_valueModels = [some 10, some 11, some 10] ∧
    repeatedLoad.state.vm.m_valueModels[0]? = some (some 10) ∧
    (repeatedLoad.state.onKeyDestroyed (some 10)).state.vm.m_valueModels = [some 10, some 11] ∧
    (repeatedLoad.state.onKeyDestroyed (some 10)).state.vm.m_valueModels
      ≠ repeatedLoad.state.vm.m_valueModels.eraseIdx 0 ∧
    (repeatedLoad.state.onKeyDestroyed (some 10)).events
      = [Event.beginRemoveRows 2 2, Event.endRemoveRows] := by
  decide

/-- C7, the code at a run the public operations allow: a key is loaded into a tab, its tree key
is destroyed (the tab goes away), and the model then signals `removed`.  The lambda connected to
`Model::removed` is still connected; it finds the model absent, emits nothing, and then calls
`setRemoved()` through its captured reference to the destroyed tree key.  In the opposite order
the second firing finds the model absent and nothing happens. -/
theorem modelRemoved_after_keyDestroyed_touches_destroyed_key :
    keyDestroyedFirst.exit = Exit.returned ∧
    keyDestroyedFirst.state.vm.m_valueModels = [] ∧
    sampleKey.id ∈ keyDestroyedFirst.state.destroyedKeys ∧
    keyDestroyedFirst.state.connections = [Slot.modelRemoved (some 10) sampleKey] ∧
    (keyDestroyedFirst.state.emitModelRemoved 10).exit
      = Exit.undefined (Fault.danglingReference sampleKey.id) ∧
    (keyDestroyedFirst.state.emitModelRemoved 10).state.vm.m_valueModels = [] ∧
    (keyDestroyedFirst.state.emitModelRemoved 10).events = [] ∧
    modelRemovedFirst.exit = Exit.returned ∧
    modelRemovedFirst.state.vm.m_valueModels = [] ∧
    (modelRemovedFirst.state.destroyKey sampleKey.id).exit = Exit.returned ∧
    (modelRemovedFirst.state.destroyKey sampleKey.id).state.vm.m_valueModels = [] ∧
    (modelRemovedFirst.state.destroyKey sampleKey.id).events = [] := by
  decide

end World

end ValueEditor

/-! ## Renaming and removing the key of a tab -/

namespace ValueEditor

namespace ViewModel

/-- A row holding a non-null handle is a valid row, and `at(i)` returns that handle. -/
theorem itemAt_of_getElem? (s : ViewModel) (i : Nat) (value : Nat)
    (hrow : s.m_valueModels[i]? = some (some value)) :
    s.isIndexValid (index (i : Int) 0) = true ∧
    QList.itemAt s.m_valueModels (i : Int) = some (some value) := by
  have hlen : i < s.m_valueModels.length := by
    rcases Nat.lt_or_ge i s.m_valueModels.length with h | h
    · exact h
    · rw [List.getElem?_eq_none h] at hrow
      exact absurd hrow (by simp)
  have hrange : (0 : Int) ≤ (i : Int) ∧ (i : Int) < (s.m_valueModels.length : Int) := by omega
  refine ⟨(isIndexValid_iff s i).2 hrange, ?_⟩
  unfold QList.itemAt QList.count
  rw [if_pos hrange, Int.toNat_natCast, hrow]

/-- An out-of-range row is not a valid row. -/
theorem isIndexValid_of_out_of_range (s : ViewModel) (i : Int)
    (h : i < 0 ∨ s.rowCount ≤ i) : s.isIndexValid (index i 0) = false := by
  rcases h with h | h
  · have h0 : ¬ (0 ≤ i) := by omega
    simp [isIndexValid, index, h0]
  · have h1 : ¬ (i < s.rowCount) := by omega
    simp [isIndexValid, index, h1]

/-- C8: for every valid row `i` (holding model `value`) and every new name, `renameKey(i, name)`
calls `setKeyName` of that model exactly once and leaves the whole view-model state (tab list,
current tab index, pending request) unchanged; if the call raises `Model::Exception`, nothing
leaves `renameKey` and exactly one error event `(i, "Can't rename key: " + what)` is emitted,
with no data-changed event; if the call returns, exactly one data-changed event for row `i` is
emitted and no error event. -/
theorem renameKey_delegates_and_reports (setKeyName : Nat → String → CallOutcome)
    (s : ViewModel) (i : Nat) (value : Nat) (newKeyName : String)
    (hrow : s.m_valueModels[i]? = some (some value)) :
    (s.renameKey setKeyName (i : Int) newKeyName).state = s ∧
    (s.renameKey setKeyName (i : Int) newKeyName).events.filter Event.isModelCall
      = [Event.setKeyName value newKeyName] ∧
    (s.renameKey setKeyName (i : Int) newKeyName).events.filter Event.isRowsNotification
      = [] ∧
    (∀ what : String,
      setKeyName value newKeyName = CallOutcome.throws (Thrown.modelException what) →
        (s.renameKey setKeyName (i : Int) newKeyName).exit = Exit.returned ∧
        (s.renameKey setKeyName (i : Int) newKeyName).events
          = [Event.setKeyName value newKeyName,
             Event.keyError (i : Int) ("Can't rename key: " ++ what)] ∧
        (s.renameKey setKeyName (i : Int) newKeyName).events.filter Event.isKeyError
          = [Event.keyError (i : Int) ("Can't rename key: " ++ what)] ∧
        (s.renameKey setKeyName (i : Int) newKeyName).events.filter Event.isDataChanged
          = []) ∧
    (setKeyName value newKeyName = CallOutcome.returns →
        (s.renameKey setKeyName (i : Int) newKeyName).exit = Exit.returned ∧
        (s.renameKey setKeyName (i : Int) newKeyName).events
          = [Event.setKeyName value newKeyName, Event.dataChanged (i : Int) (i : Int)] ∧
        (s.renameKey setKeyName (i : Int) newKeyName).events.filter Event.isDataChanged
          = [Event.dataChanged (i : Int) (i : Int)] ∧
        (s.renameKey setKeyName (i : Int) newKeyName).events.filter Event.isKeyError
          = []) := by
  obtain ⟨hvalid, hat⟩ := itemAt_of_getElem? s i value hrow
  unfold renameKey
  simp only [hvalid, hat, Bool.not_true, Bool.false_eq_true, if_false]
  cases hcall : setKeyName value newKeyName with
  | returns =>
    simp [List.filter, Event.isModelCall, Event.isKeyError, Event.isDataChanged,
      Event.isRowsNotification]
  | throws e =>
    cases e with
    | modelException what =>
      simp [List.filter, Event.isModelCall, Event.isKeyError, Event.isDataChanged,
        Event.isRowsNotification]
    | other what =>
      simp [List.filter, Event.isModelCall, Event.isKeyError, Event.isDataChanged,
        Event.isRowsNotification]

/-- C8 at a concrete input: renaming the key of row 1 of two tabs when the model refuses. -/
theorem renameKey_delegates_and_reports_witness :
    twoTabs.m_valueModels[1]? = some (some 11) ∧
    (twoTabs.renameKey (fun _ _ => failingCall) 1 "user:2").state = twoTabs ∧
    (twoTabs.renameKey (fun _ _ => failingCall) 1 "user:2").events
      = [Event.setKeyName 11 "user:2", Event.keyError 1 "Can't rename key: ERR"] :=
  ⟨by decide,
   (renameKey_delegates_and_reports (fun _ _ => failingCall) twoTabs 1 11 "user:2"
      (by decide)).1,
   ((renameKey_delegates_and_reports (fun _ _ => failingCall) twoTabs 1 11 "user:2"
      (by decide)).2.2.2.1 "ERR" rfl).2.1⟩

end ViewModel

end ValueEditor

namespace ValueEditor

namespace ViewModel

/-- C9: for every valid row `i` (holding model `value`), `removeKey(i)` calls `removeKey` of
that model exactly once and does not itself shrink the list: the whole view-model state (tab
list, current tab index, pending request) is the same after the call whether the remove returns
or throws, and no rows-removed or data-changed notification is emitted; exactly one error event
`(i, "Can't remove key: " + what)` is emitted when the remove raises `Model::Exception`, and no
error event otherwise. -/
theorem removeKey_delegates_without_shrinking (removeKeyCall : Nat → CallOutcome)
    (s : ViewModel) (i : Nat) (value : Nat)
    (hrow : s.m_valueModels[i]? = some (some value)) :
    (s.removeKey removeKeyCall (i : Int)).state = s ∧
    (s.removeKey removeKeyCall (i : Int)).events.filter Event.isModelCall
      = [Event.removeKey value] ∧
    (s.removeKey removeKeyCall (i : Int)).events.filter Event.isRowsNotification = [] ∧
    (s.removeKey removeKeyCall (i : Int)).events.filter Event.isDataChanged = [] ∧
    (∀ what : String, removeKeyCall value = CallOutcome.throws (Thrown.modelException what) →
        (s.removeKey removeKeyCall (i : Int)).exit = Exit.returned ∧
        (s.removeKey removeKeyCall (i : Int)).events
          = [Event.removeKey value, Event.keyError (i : Int) ("Can't remove key: " ++ what)] ∧
        (s.removeKey removeKeyCall (i : Int)).events.filter Event.isKeyError
          = [Event.keyError (i : Int) ("Can't remove key: " ++ what)]) ∧
    ((∀ what : String, removeKeyCall value ≠ CallOutcome.throws (Thrown.modelException what)) →
        (s.removeKey removeKeyCall (i : Int)).events = [Event.removeKey value]) ∧
    (removeKeyCall value = CallOutcome.returns →
        (s.removeKey removeKeyCall (i : Int)).exit = Exit.returned) := by
  obtain ⟨hvalid, hat⟩ := itemAt_of_getElem? s i value hrow
  unfold removeKey
  simp only [hvalid, hat, Bool.not_true, Bool.false_eq_true, if_false]
  cases hcall : removeKeyCall value with
  | returns =>
    simp [List.filter, Event.isModelCall, Event.isKeyError, Event.isDataChanged,
      Event.isRowsNotification]
  | throws e =>
    cases e with
    | modelException what =>
      simp [List.filter, Event.isModelCall, Event.isKeyError, Event.isDataChanged,
        Event.isRowsNotification]
    | other what =>
      simp [List.filter, Event.isModelCall, Event.isKeyError, Event.isDataChanged,
        Event.isRowsNotification]

/-- C9 at a concrete input: removing the key of row 0 of two tabs, once with a model that
refuses and once with a model that complies. -/
theorem removeKey_delegates_without_shrinking_witness :
    twoTabs.m_valueModels[0]? = some (some 10) ∧
    (twoTabs.removeKey (fun _ => failingCall) 0).state = twoTabs ∧
    (twoTabs.removeKey (fun _ => failingCall) 0).events
      = [Event.removeKey 10, Event.keyError 0 "Can't remove key: ERR"] ∧
    (twoTabs.removeKey (fun _ => CallOutcome.returns) 0).state = twoTabs :=
  ⟨by decide,
   (removeKey_delegates_without_shrinking (fun _ => failingCall) twoTabs 0 10 (by decide)).1,
   ((removeKey_delegates_without_shrinking (fun _ => failingCall) twoTabs 0 10
      (by decide)).2.2.2.2.1 "ERR" rfl).2.1,
   (removeKey_delegates_without_shrinking (fun _ => CallOutcome.returns) twoTabs 0 10
      (by decide)).1⟩

/-- C10: for every state and every index `i` with `i < 0` or `i >= count`, `renameKey(i, name)`,
`removeKey(i)` and `closeTab(i)` are no-ops: the whole view-model state (tab list, current tab
index, pending new-key request) is unchanged, they return normally, and nothing is emitted or
called: no model operation, no error, data-changed or rows-removed event. -/
theorem out_of_range_index_is_noop (setKeyName : Nat → String → CallOutcome)
    (removeKeyCall : Nat → CallOutcome) (s : ViewModel) (i : Int) (newKeyName : String)
    (h : i < 0 ∨ s.rowCount ≤ i) :
    (s.renameKey setKeyName i newKeyName).state = s ∧
    (s.renameKey setKeyName i newKeyName).events = [] ∧
    (s.renameKey setKeyName i newKeyName).exit = Exit.returned ∧
    (s.removeKey removeKeyCall i).state = s ∧
    (s.removeKey removeKeyCall i).events = [] ∧
    (s.removeKey removeKeyCall i).exit = Exit.returned ∧
    s.closeTab i = (s, []) := by
  have hinvalid := isIndexValid_of_out_of_range s i h
  simp [renameKey, removeKey, closeTab, hinvalid]

/-- C10 at concrete inputs: row 2 and row -1 of two tabs. -/
theorem out_of_range_index_is_noop_witness :
    ((2 : Int) < 0 ∨ twoTabs.rowCount ≤ 2) ∧ ((-1 : Int) < 0 ∨ twoTabs.rowCount ≤ -1) ∧
    (twoTabs.renameKey (fun _ _ => CallOutcome.returns) 2 "user:2").events = [] ∧
    twoTabs.closeTab (-1) = (twoTabs, []) :=
  ⟨by decide, by decide,
   (out_of_range_index_is_noop (fun _ _ => CallOutcome.returns) (fun _ => CallOutcome.returns)
      twoTabs 2 "user:2" (by decide)).2.1,
   (out_of_range_index_is_noop (fun _ _ => CallOutcome.returns) (fun _ => CallOutcome.returns)
      twoTabs (-1) "user:2" (by decide)).2.2.2.2.2.2⟩

end ViewModel

end ValueEditor

/-! ## The completion handler on a missing key, and the welcome tab -/

namespace ValueEditor

namespace World

/-- C11: for every state and either value of `inNewTab`, when the load started by `openTab`
completes with a null model the completion handler is a no-op: the whole world (tab list,
current tab index, pending request, connections, tree keys) is unchanged, so no lifecycle
subscription is installed, it returns normally, and nothing at all is emitted. -/
theorem onKeyLoaded_null_is_noop (w : World) (inNewTab : Bool) (key : KeyItem) :
    (w.onKeyLoaded inNewTab key none).state = w ∧
    (w.onKeyLoaded inNewTab key none).state.vm.m_valueModels = w.vm.m_valueModels ∧
    (w.onKeyLoaded inNewTab key none).state.vm.m_currentTabIndex = w.vm.m_currentTabIndex ∧
    (w.onKeyLoaded inNewTab key none).state.connections = w.connections ∧
    (w.onKeyLoaded inNewTab key none).events = [] ∧
    (w.onKeyLoaded inNewTab key none).exit = Exit.returned := by
  simp [onKeyLoaded]

end World

namespace ViewModel

/-- C12: for every state whose tab list is empty, every stored current tab index, either value
of `inNewTab` and every non-null model `m`, `loadModel(m, inNewTab)` emits the close-welcome
signal exactly once, first, and makes the tab list exactly `[m]` with one rows-inserted
notification for row 0 and no replace-tab event; and for every non-empty tab list `loadModel`
emits no close-welcome signal. -/
theorem loadModel_closes_welcome_iff_empty (s : ViewModel) (m : Nat) (inNewTab : Bool) :
    (s.m_valueModels = [] →
      (s.loadModel (some m) inNewTab).1.m_valueModels = [some m] ∧
      (s.loadModel (some m) inNewTab).1.rowCount = 1 ∧
      (s.loadModel (some m) inNewTab).1.m_currentTabIndex = s.m_currentTabIndex ∧
      (s.loadModel (some m) inNewTab).2
        = [Event.closeWelcomeTab, Event.beginInsertRows 0 0, Event.endInsertRows] ∧
      (s.loadModel (some m) inNewTab).2.count Event.closeWelcomeTab = 1 ∧
      (∀ c : Int, Event.replaceTab c ∉ (s.loadModel (some m) inNewTab).2)) ∧
    (s.m_valueModels ≠ [] →
      ∀ model : ModelPtr, Event.closeWelcomeTab ∉ (s.loadModel model inNewTab).2) := by
  constructor
  · intro hnil
    have hcount : QList.count s.m_valueModels = 0 := by simp [QList.count, hnil]
    have hcount0 : QList.count ([] : List ModelPtr) = 0 := rfl
    have hrun : s.loadModel (some m) inNewTab =
        ({ s with m_valueModels := [some m] },
          [Event.closeWelcomeTab, Event.beginInsertRows 0 0, Event.endInsertRows]) := by
      simp [loadModel, hcount0, QList.append, hnil]
    rw [hrun]
    refine ⟨rfl, ?_, rfl, rfl, ?_, ?_⟩
    · simp [rowCount, QList.count]
    · show List.count Event.closeWelcomeTab
        [Event.closeWelcomeTab, Event.beginInsertRows 0 0, Event.endInsertRows] = 1
      decide
    · intro c hmem
      simp at hmem
  · intro hne model
    cases inNewTab with
    | true =>
      have hcount : ¬ (QList.count s.m_valueModels = 0) := by
        simpa [QList.count] using hne
      rw [loadModel_newTab]
      simp [hcount]
    | false =>
      rw [loadModel_sameTab s model hne]
      simp

end ViewModel

end ValueEditor

/-! ## Removal by identity -/

namespace ValueEditor

namespace QList

variable {α : Type}

/-- Below any bound under which `value` occurs there is a greatest index holding it. -/
theorem exists_greatest_index_below (l : List α) (value : α) :
    ∀ n : Nat, (∃ j : Nat, j < n ∧ l[j]? = some value) →
      ∃ k : Nat, k < n ∧ l[k]? = some value ∧
        ∀ j : Nat, k < j → j < n → l[j]? ≠ some value
  | 0, h => by
      obtain ⟨j, hj, _⟩ := h
      exact absurd hj (Nat.not_lt_zero j)
  | n + 1, h => by
      by_cases hn : l[n]? = some value
      · exact ⟨n, Nat.lt_succ_self n, hn, fun j h1 h2 => by omega⟩
      · obtain ⟨j, hj, hjv⟩ := h
        have hjn : j < n := by
          rcases Nat.lt_or_ge j n with h1 | h1
          · exact h1
          · have : j = n := by omega
            rw [this] at hjv
            exact absurd hjv hn
        obtain ⟨k, hk, hkv, hlast⟩ := exists_greatest_index_below l value n ⟨j, hjn, hjv⟩
        refine ⟨k, Nat.lt_succ_of_lt hk, hkv, ?_⟩
        intro i h1 h2
        by_cases hin : i = n
        · rw [hin]
          exact hn
        · exact hlast i h1 (by omega)

/-- A member of the list has a greatest index. -/
theorem exists_greatest_index (l : List α) (value : α) (hmem : value ∈ l) :
    ∃ k : Nat, l[k]? = some value ∧ ∀ j : Nat, k < j → l[j]? ≠ some value := by
  obtain ⟨j, hj, hjv⟩ := List.mem_iff_getElem.1 hmem
  have hsome : l[j]? = some value := by
    rw [List.getElem?_eq_getElem hj, hjv]
  obtain ⟨k, _, hkv, hlast⟩ :=
    exists_greatest_index_below l value l.length ⟨j, hj, hsome⟩
  refine ⟨k, hkv, ?_⟩
  intro i h1
  rcases Nat.lt_or_ge i l.length with h2 | h2
  · exact hlast i h1 h2
  · rw [List.getElem?_eq_none h2]
    simp

/-- Erasing an entry equal to `value` lowers the number of occurrences of `value` by one. -/
theorem count_eraseIdx_of_getElem? [BEq α] [LawfulBEq α] (value : α) :
    ∀ (l : List α) (k : Nat), l[k]? = some value →
      (l.eraseIdx k).count value + 1 = l.count value
  | [], k, h => by simp at h
  | x :: xs, 0, h => by
      have hx : x = value := by simpa using h
      simp [hx]
  | x :: xs, k + 1, h => by
      have h1 : xs[k]? = some value := by simpa using h
      have ih := count_eraseIdx_of_getElem? value xs k h1
      by_cases hx : x = value
      · simp [List.count_cons, hx]
        omega
      · simp [List.count_cons, hx]
        omega

end QList

namespace ViewModel

/-- C18: for every tab list and every model handle, `removeModel` compares by identity.  If the
handle does not occur in the list, the view-model is unchanged and nothing is emitted.  If it
occurs, exactly the entry at the greatest index `k` holding it is removed: the count decreases
by exactly 1, the number of occurrences of the handle decreases by exactly 1, all other entries
keep their relative order, and exactly one rows-removed notification, for row `k`, is emitted.
The function has no other way to end. -/
theorem removeModel_by_identity (s : ViewModel) (model : ModelPtr) :
    (model ∉ s.m_valueModels → s.removeModel model = (s, [])) ∧
    (model ∈ s.m_valueModels →
      ∃ k : Nat, s.m_valueModels[k]? = some model ∧
        (∀ j : Nat, k < j → s.m_valueModels[j]? ≠ some model) ∧
        (s.removeModel model).1.m_valueModels = s.m_valueModels.eraseIdx k ∧
        (s.removeModel model).1.m_valueModels
          = s.m_valueModels.take k ++ s.m_valueModels.drop (k + 1) ∧
        (s.removeModel model).1.rowCount = s.rowCount - 1 ∧
        (s.removeModel model).1.m_valueModels.count model + 1
          = s.m_valueModels.count model ∧
        (s.removeModel model).2
          = [Event.beginRemoveRows (k : Int) (k : Int), Event.endRemoveRows] ∧
        (s.removeModel model).1.m_currentTabIndex = s.m_currentTabIndex ∧
        (s.removeModel model).1.m_newKeyRequest = s.m_newKeyRequest) := by
  constructor
  · intro hnot
    apply removeModel_of_absent
    intro j hj
    exact hnot (List.getElem?_mem hj)
  · intro hmem
    obtain ⟨k, hk, hlast⟩ := QList.exists_greatest_index s.m_valueModels model hmem
    have hlen : k < s.m_valueModels.length := by
      rcases Nat.lt_or_ge k s.m_valueModels.length with h | h
      · exact h
      · rw [List.getElem?_eq_none h] at hk
        exact absurd hk (by simp)
    refine ⟨k, hk, hlast, ?_⟩
    rw [removeModel_of_last s model k hk hlast]
    refine ⟨rfl, ?_, ?_, ?_, rfl, rfl, rfl⟩
    · exact List.eraseIdx_eq_take_drop_succ _ _
    · simp only [rowCount, QList.count, List.length_eraseIdx_of_lt hlen]
      omega
    · exact QList.count_eraseIdx_of_getElem? model s.m_valueModels k hk

end ViewModel

end ValueEditor

/-! ## Reusing the current tab when the stored index is not a row -/

namespace ValueEditor

namespace ViewModel

/-- C19: under the Qt 5 list semantics (`insert` clamps its index into `[0, size]`, `removeAt`
ignores an out-of-range index), for every non-empty tab list of length `n` and every stored
current tab index `c >= n`, `loadModel(m, false)` appends `m` without removing anything: the
count becomes `n + 1` and all old entries are kept at their rows, while the only things emitted
are `replaceTab(c)` and `dataChanged` for row `c`, so no rows-inserted notification.  Such a
state is reached from any `n + 1 >= 2` tabs by `setCurrentTab(n)` followed by `closeTab(n)`,
because `closeTab` never adjusts the current tab index. -/
theorem loadModel_sameTab_index_past_end (s : ViewModel) (m : Nat)
    (hne : s.m_valueModels ≠ []) (hc : s.rowCount ≤ s.m_currentTabIndex) :
    ((s.loadModel (some m) false).1.m_valueModels = s.m_valueModels ++ [some m] ∧
     (s.loadModel (some m) false).1.rowCount = s.rowCount + 1 ∧
     (∀ j : Nat, j < s.m_valueModels.length →
       (s.loadModel (some m) false).1.m_valueModels[j]? = s.m_valueModels[j]?) ∧
     (s.loadModel (some m) false).2
       = [Event.replaceTab s.m_currentTabIndex,
          Event.dataChanged s.m_currentTabIndex s.m_currentTabIndex] ∧
     (s.loadModel (some m) false).2.filter Event.isRowsNotification = []) ∧
    (∀ s0 : ViewModel, 2 ≤ s0.m_valueModels.length →
      ((s0.setCurrentTab (s0.rowCount - 1)).closeTab (s0.rowCount - 1)).1.m_valueModels ≠ [] ∧
      ((s0.setCurrentTab (s0.rowCount - 1)).closeTab (s0.rowCount - 1)).1.rowCount
        = s0.rowCount - 1 ∧
      ((s0.setCurrentTab (s0.rowCount - 1)).closeTab (s0.rowCount - 1)).1.rowCount
        ≤ ((s0.setCurrentTab (s0.rowCount - 1)).closeTab (s0.rowCount - 1)).1.m_currentTabIndex)
    := by
  constructor
  · have hlen : (s.m_valueModels.length : Int) ≤ s.m_currentTabIndex := by
      simpa [rowCount, QList.count] using hc
    have hpos : 0 < s.m_valueModels.length := List.length_pos.2 hne
    have hins : QList.insert s.m_valueModels s.m_currentTabIndex (some m)
        = s.m_valueModels ++ [some m] := by
      unfold QList.insert QList.count
      have h1 : ¬ (s.m_currentTabIndex ≤ 0) := by omega
      rw [if_neg h1, if_pos hlen]
    have hrem : QList.removeAt (s.m_valueModels ++ [some m]) (s.m_currentTabIndex + 1)
        = s.m_valueModels ++ [some m] := by
      apply QList.removeAt_of_not_lt
      right
      simp only [List.length_append, List.length_singleton]
      omega
    rw [loadModel_sameTab s (some m) hne, hins, hrem]
    refine ⟨rfl, ?_, ?_, rfl, ?_⟩
    · simp [rowCount, QList.count]
    · intro j hj
      simp [List.getElem?_append_left hj]
    · simp [List.filter, Event.isRowsNotification]
  · intro s0 h2
    have hrow : s0.rowCount - 1 = ((s0.m_valueModels.length - 1 : Nat) : Int) := by
      simp only [rowCount, QList.count]
      omega
    have hk : s0.m_valueModels.length - 1 < s0.m_valueModels.length := by omega
    have hvalid : (s0.setCurrentTab (s0.rowCount - 1)).isIndexValid
        (index (s0.rowCount - 1) 0) = true := by
      rw [hrow]
      exact (isIndexValid_iff _ _).2 (by
        simp only [setCurrentTab]
        omega)
    have hrun : (s0.setCurrentTab (s0.rowCount - 1)).closeTab (s0.rowCount - 1) =
        ({ s0 with m_valueModels := s0.m_valueModels.eraseIdx (s0.m_valueModels.length - 1),
                   m_currentTabIndex := s0.rowCount - 1 },
          [Event.beginRemoveRows (s0.rowCount - 1) (s0.rowCount - 1), Event.endRemoveRows]) := by
      unfold closeTab
      rw [hvalid]
      simp only [Bool.not_true, Bool.false_eq_true, if_false, setCurrentTab]
      rw [hrow, QList.removeAt_of_lt _ _ hk]
    rw [hrun]
    have hlen' : (s0.m_valueModels.eraseIdx (s0.m_valueModels.length - 1)).length
        = s0.m_valueModels.length - 1 := List.length_eraseIdx_of_lt hk
    refine ⟨?_, ?_, ?_⟩
    · intro hnil
      have : (s0.m_valueModels.eraseIdx (s0.m_valueModels.length - 1)).length = 0 := by
        have h0 : (s0.m_valueModels.eraseIdx (s0.m_valueModels.length - 1)) = [] := hnil
        rw [h0]
        rfl
      omega
    · simp only [rowCount, QList.count, hlen']
      omega
    · simp only [rowCount, QList.count, hlen']
      omega

/-- C19 at a concrete input: one tab and the stored current tab index 1. -/
theorem loadModel_sameTab_index_past_end_witness :
    closedLastTab.state.vm.m_valueModels ≠ [] ∧
    closedLastTab.state.vm.rowCount ≤ closedLastTab.state.vm.m_currentTabIndex ∧
    (closedLastTab.state.vm.loadModel (some 12) false).1.m_valueModels = [some 10, some 12] ∧
    (closedLastTab.state.vm.loadModel (some 12) false).2
      = [Event.replaceTab 1, Event.dataChanged 1 1] :=
  ⟨by decide, by decide,
   (loadModel_sameTab_index_past_end closedLastTab.state.vm 12 (by decide) (by decide)).1.1,
   (loadModel_sameTab_index_past_end closedLastTab.state.vm 12
      (by decide) (by decide)).1.2.2.2.1⟩

end ViewModel

end ValueEditor

namespace ValueEditor

namespace ViewModel

/-- C20: under the Qt 5 list semantics (`insert` with an index `<= 0` prepends, `removeAt`
ignores an out-of-range index), for every non-empty tab list and every negative stored current
tab index `c`: when `c = -1`, `loadModel(m, false)` prepends `m` and then removes index 0, so
the tab list is exactly what it was and `m` has not entered it (it occurs as often as before,
and not at all unless it was there already); when `c < -1`, `m` is prepended and nothing is
removed, so the count grows by 1; in both cases the only things emitted are `replaceTab(c)` and
`dataChanged` for row `c`, so no rows-inserted or rows-removed notification. -/
theorem loadModel_sameTab_negative_index (s : ViewModel) (m : Nat)
    (hne : s.m_valueModels ≠ []) (hneg : s.m_currentTabIndex < 0) :
    QList.insert s.m_valueModels s.m_currentTabIndex (some m) = some m :: s.m_valueModels ∧
    (s.m_currentTabIndex = -1 →
      QList.removeAt (some m :: s.m_valueModels) (s.m_currentTabIndex + 1) = s.m_valueModels ∧
      (s.loadModel (some m) false).1.m_valueModels = s.m_valueModels ∧
      (s.loadModel (some m) false).1 = s ∧
      (s.loadModel (some m) false).1.m_valueModels.count (some m)
        = s.m_valueModels.count (some m) ∧
      (some m ∉ s.m_valueModels → some m ∉ (s.loadModel (some m) false).1.m_valueModels)) ∧
    (s.m_currentTabIndex < -1 →
      (s.loadModel (some m) false).1.m_valueModels = some m :: s.m_valueModels ∧
      (s.loadModel (some m) false).1.rowCount = s.rowCount + 1) ∧
    (s.loadModel (some m) false).2
      = [Event.replaceTab s.m_currentTabIndex,
         Event.dataChanged s.m_currentTabIndex s.m_currentTabIndex] ∧
    (s.loadModel (some m) false).2.filter Event.isRowsNotification = [] := by
  have hins : QList.insert s.m_valueModels s.m_currentTabIndex (some m)
      = some m :: s.m_valueModels := by
    unfold QList.insert
    rw [if_pos (by omega)]
  rw [loadModel_sameTab s (some m) hne, hins]
  refine ⟨rfl, ?_, ?_, rfl, ?_⟩
  · intro hc
    have hrem : QList.removeAt (some m :: s.m_valueModels) (s.m_currentTabIndex + 1)
        = s.m_valueModels := by
      rw [hc]
      have h := QList.removeAt_of_lt (some m :: s.m_valueModels) 0 (by simp)
      simpa using h
    simp only [hrem]
    exact ⟨trivial, trivial, trivial, trivial, fun h => h⟩
  · intro hc
    have hrem : QList.removeAt (some m :: s.m_valueModels) (s.m_currentTabIndex + 1)
        = some m :: s.m_valueModels :=
      QList.removeAt_of_not_lt _ _ (Or.inl (by omega))
    simp only [hrem]
    refine ⟨trivial, ?_⟩
    simp [rowCount, QList.count]
  · simp [List.filter, Event.isRowsNotification]

/-- C20 at concrete inputs: two tabs with the stored current tab index -1, and with -2. -/
theorem loadModel_sameTab_negative_index_witness :
    negativeIndexWorld.vm.m_valueModels ≠ [] ∧ negativeIndexWorld.vm.m_currentTabIndex < 0 ∧
    (negativeIndexWorld.vm.loadModel (some 12) false).1.m_valueModels = [some 10, some 11] ∧
    ((twoTabs.setCurrentTab (-2)).loadModel (some 12) false).1.m_valueModels
      = [some 12, some 10, some 11] ∧
    (negativeIndexWorld.vm.loadModel (some 12) false).2
      = [Event.replaceTab (-1), Event.dataChanged (-1) (-1)] :=
  ⟨by decide, by decide,
   ((loadModel_sameTab_negative_index negativeIndexWorld.vm 12 (by decide) (by decide)).2.1
      (by decide)).2.1,
   ((loadModel_sameTab_negative_index (twoTabs.setCurrentTab (-2)) 12 (by decide)
      (by decide)).2.2.1 (by decide)).1,
   (loadModel_sameTab_negative_index negativeIndexWorld.vm 12 (by decide)
      (by decide)).2.2.2.1⟩

end ViewModel

end ValueEditor

/-! ## The row read interface: `data` and `roleNames` -/

namespace ValueEditor

namespace ViewModel

/-- C13: for every state, every role and every row `r`, `data(r, role)` returns the invalid
(empty) variant whenever `r < 0`, or `r >= count`, or the list entry at `r` is a null handle.
`data` is a total function of the state and returns nothing but the variant, so it cannot fail
or change state. -/
theorem data_invalid_of_bad_row (roles : Roles) (models : Nat → ModelData) (s : ViewModel)
    (index : QModelIndex) (role : Int)
    (h : index.row < 0 ∨ s.rowCount ≤ index.row ∨
      QList.itemAt s.m_valueModels index.row = some none) :
    s.data roles models index role = QVariant.invalid := by
  unfold data
  rcases h with h | h | h
  · have hinv : s.isIndexValid index = false := by
      have h0 : ¬ (0 ≤ index.row) := by omega
      simp [isIndexValid, h0]
    simp [hinv]
  · have hinv : s.isIndexValid index = false := by
      have h1 : ¬ (index.row < s.rowCount) := by omega
      simp [isIndexValid, h1]
    simp [hinv]
  · rw [h]
    simp

/-- C13 at concrete inputs: rows -1 and 2 of two rows, and row 1 holding a null handle. -/
theorem data_invalid_of_bad_row_witness :
    QList.itemAt nullTab.m_valueModels 1 = some none ∧
    nullTab.data sampleRoles sampleModels (index 1 0) 258 = QVariant.invalid ∧
    nullTab.data sampleRoles sampleModels (index (-1) 0) 258 = QVariant.invalid ∧
    nullTab.data sampleRoles sampleModels (index 2 0) 258 = QVariant.invalid :=
  ⟨by decide,
   data_invalid_of_bad_row sampleRoles sampleModels nullTab (index 1 0) 258
     (Or.inr (Or.inr (by decide))),
   data_invalid_of_bad_row sampleRoles sampleModels nullTab (index (-1) 0) 258
     (Or.inl (by decide)),
   data_invalid_of_bad_row sampleRoles sampleModels nullTab (index 2 0) 258
     (Or.inr (Or.inl (by decide)))⟩

/-- C14: for every valid row `r` holding a non-null model `m` (and role identifiers that are
pairwise distinct), `data(r, role)` returns `r` for the `keyIndex` role and `m`'s key name,
TTL, type, state, multi-row flag, column-name sequence and row count for the roles `keyName`,
`keyTtl`, `keyType`, `keyState`, `showValueNavigation`, `columnNames` and `valuesCount`; for the
`keyValue` role and for every role identifier outside the eight above it returns the invalid
(empty) variant. -/
theorem data_per_role (roles : Roles) (models : Nat → ModelData) (s : ViewModel)
    (r : Nat) (m : Nat) (hrow : s.m_valueModels[r]? = some (some m))
    (hdistinct : roles.ids.Nodup) :
    s.data roles models (index (r : Int) 0) roles.keyIndex = QVariant.integer (r : Int) ∧
    s.data roles models (index (r : Int) 0) roles.keyNameRole
      = QVariant.text (models m).getKeyName ∧
    s.data roles models (index (r : Int) 0) roles.keyTTL = QVariant.integer (models m).getTTL ∧
    s.data roles models (index (r : Int) 0) roles.keyType = QVariant.text (models m).getType ∧
    s.data roles models (index (r : Int) 0) roles.state
      = QVariant.integer (models m).getState ∧
    s.data roles models (index (r : Int) 0) roles.showValueNavigation
      = QVariant.boolean (models m).isMultiRow ∧
    s.data roles models (index (r : Int) 0) roles.columnNames
      = QVariant.textList (models m).getColumnNames ∧
    s.data roles models (index (r : Int) 0) roles.count
      = QVariant.integer ((models m).rowsCount : Int) ∧
    s.data roles models (index (r : Int) 0) roles.keyValue = QVariant.invalid ∧
    (∀ role : Int, role ∉ roles.ids.take 8 →
      s.data roles models (index (r : Int) 0) role = QVariant.invalid) := by
  obtain ⟨hvalid, hat⟩ := itemAt_of_getElem? s r m hrow
  have hrowEq : (index (r : Int) 0).row = (r : Int) := rfl
  simp only [Roles.ids, List.nodup_cons, List.mem_cons, List.mem_singleton, not_or,
    List.not_mem_nil, not_false_eq_true, List.nodup_nil, and_true] at hdistinct
  obtain ⟨⟨h12, h13, h14, h15, h16, h17, h18, h19⟩, ⟨h23, h24, h25, h26, h27, h28, h29⟩,
    ⟨h34, h35, h36, h37, h38, h39⟩, ⟨h45, h46, h47, h48, h49⟩, ⟨h56, h57, h58, h59⟩,
    ⟨h67, h68, h69⟩, ⟨h78, h79⟩, h89⟩ := hdistinct
  unfold data
  simp only [hvalid, hrowEq, hat, Bool.not_true, Bool.false_eq_true, if_false]
  refine ⟨?_, ?_, ?_, ?_, ?_, ?_, ?_, ?_, ?_, ?_⟩
  · simp
  · simp [Ne.symm h12]
  · simp [Ne.symm h13, Ne.symm h23]
  · simp [Ne.symm h14, Ne.symm h24, Ne.symm h34]
  · simp [Ne.symm h15, Ne.symm h25, Ne.symm h35, Ne.symm h45]
  · simp [Ne.symm h16, Ne.symm h26, Ne.symm h36, Ne.symm h46, Ne.symm h56]
  · simp [Ne.symm h17, Ne.symm h27, Ne.symm h37, Ne.symm h47, Ne.symm h57, Ne.symm h67]
  · simp [Ne.symm h18, Ne.symm h28, Ne.symm h38, Ne.symm h48, Ne.symm h58, Ne.symm h68,
      Ne.symm h78]
  · simp [Ne.symm h19, Ne.symm h29, Ne.symm h39, Ne.symm h49, Ne.symm h59, Ne.symm h69,
      Ne.symm h79, Ne.symm h89]
  · intro role hrole
    simp only [Roles.ids, List.take, List.mem_cons, List.not_mem_nil, or_false, not_or] at hrole
    obtain ⟨g1, g2, g3, g4, g5, g6, g7, g8⟩ := hrole
    simp [g1, g2, g3, g4, g5, g6, g7, g8]

/-- C14 at a concrete input: row 0 of two tabs. -/
theorem data_per_role_witness :
    twoTabs.m_valueModels[0]? = some (some 10) ∧ sampleRoles.ids.Nodup ∧
    twoTabs.data sampleRoles sampleModels (index 0 0) 258 = QVariant.text "user:1" ∧
    twoTabs.data sampleRoles sampleModels (index 0 0) 264 = QVariant.integer 3 ∧
    twoTabs.data sampleRoles sampleModels (index 0 0) 265 = QVariant.invalid :=
  ⟨by decide, by decide,
   (data_per_role sampleRoles sampleModels twoTabs 0 10 (by decide) (by decide)).2.1,
   (data_per_role sampleRoles sampleModels twoTabs 0 10 (by decide) (by decide)).2.2.2.2.2.2.2.1,
   (data_per_role sampleRoles sampleModels twoTabs 0 10
      (by decide) (by decide)).2.2.2.2.2.2.2.2.1⟩

end ViewModel

end ValueEditor

namespace ValueEditor

namespace ViewModel

/-- With pairwise distinct role identifiers every assignment in `roleNames` adds an entry. -/
theorem roleNames_entries (roles : Roles) (s : ViewModel) (hdistinct : roles.ids.Nodup) :
    roleNames roles s =
      [(roles.keyIndex, "keyIndex"), (roles.keyNameRole, "keyName"), (roles.keyTTL, "keyTtl"),
       (roles.keyType, "keyType"), (roles.state, "keyState"),
       (roles.showValueNavigation, "showValueNavigation"), (roles.columnNames, "columnNames"),
       (roles.count, "valuesCount"), (roles.keyValue, "keyValue")] := by
  simp only [Roles.ids, List.nodup_cons, List.mem_cons, List.mem_singleton, not_or,
    List.not_mem_nil, not_false_eq_true, List.nodup_nil, and_true] at hdistinct
  obtain ⟨⟨h12, h13, h14, h15, h16, h17, h18, h19⟩, ⟨h23, h24, h25, h26, h27, h28, h29⟩,
    ⟨h34, h35, h36, h37, h38, h39⟩, ⟨h45, h46, h47, h48, h49⟩, ⟨h56, h57, h58, h59⟩,
    ⟨h67, h68, h69⟩, ⟨h78, h79⟩, h89⟩ := hdistinct
  simp [roleNames, hashAssign, h12, h13, h14, h15, h16, h17, h18, h19, h23, h24, h25, h26, h27,
    h28, h29, h34, h35, h36, h37, h38, h39, h45, h46, h47, h48, h49, h56, h57, h58, h59, h67,
    h68, h69, h78, h79, h89]

/-- C17: in every state, `roleNames` returns a table with exactly nine entries, one per role
identifier (the identifiers being pairwise distinct), whose names are exactly `keyIndex`,
`keyName`, `keyTtl`, `keyType`, `keyState`, `showValueNavigation`, `columnNames`, `valuesCount`
and `keyValue`; no two role identifiers share a name, and the table is the same whatever the
state of the view-model. -/
theorem roleNames_table (roles : Roles) (s : ViewModel) (hdistinct : roles.ids.Nodup) :
    (roleNames roles s).length = 9 ∧
    (roleNames roles s).map Prod.fst = roles.ids ∧
    (roleNames roles s).map Prod.snd
      = ["keyIndex", "keyName", "keyTtl", "keyType", "keyState", "showValueNavigation",
         "columnNames", "valuesCount", "keyValue"] ∧
    hashValue (roleNames roles s) roles.keyIndex = some "keyIndex" ∧
    hashValue (roleNames roles s) roles.keyNameRole = some "keyName" ∧
    hashValue (roleNames roles s) roles.keyTTL = some "keyTtl" ∧
    hashValue (roleNames roles s) roles.keyType = some "keyType" ∧
    hashValue (roleNames roles s) roles.state = some "keyState" ∧
    hashValue (roleNames roles s) roles.showValueNavigation = some "showValueNavigation" ∧
    hashValue (roleNames roles s) roles.columnNames = some "columnNames" ∧
    hashValue (roleNames roles s) roles.count = some "valuesCount" ∧
    hashValue (roleNames roles s) roles.keyValue = some "keyValue" ∧
    (∀ role : Int, role ∉ roles.ids → hashValue (roleNames roles s) role = none) ∧
    (∀ e1 ∈ roleNames roles s, ∀ e2 ∈ roleNames roles s, e1.2 = e2.2 → e1.1 = e2.1) ∧
    (∀ s2 : ViewModel, roleNames roles s2 = roleNames roles s) := by
  have hnames : ((roleNames roles s).map Prod.snd).Nodup := by
    rw [roleNames_entries roles s hdistinct]
    show (["keyIndex", "keyName", "keyTtl", "keyType", "keyState", "showValueNavigation",
      "columnNames", "valuesCount", "keyValue"] : List String).Nodup
    decide
  have hinj : ∀ e1 ∈ roleNames roles s, ∀ e2 ∈ roleNames roles s, e1.2 = e2.2 → e1.1 = e2.1 := by
    intro e1 h1 e2 h2 heq
    rw [List.inj_on_of_nodup_map hnames h1 h2 heq]
  have hsame : ∀ s2 : ViewModel, roleNames roles s2 = roleNames roles s := fun _ => rfl
  refine ⟨?_, ?_, ?_, ?_, ?_, ?_, ?_, ?_, ?_, ?_, ?_, ?_, ?_, hinj, hsame⟩
  all_goals rw [roleNames_entries roles s hdistinct]
  all_goals simp only [Roles.ids, List.nodup_cons, List.mem_cons, List.mem_singleton, not_or,
    List.not_mem_nil, not_false_eq_true, List.nodup_nil, and_true] at hdistinct
  all_goals obtain ⟨⟨h12, h13, h14, h15, h16, h17, h18, h19⟩,
    ⟨h23, h24, h25, h26, h27, h28, h29⟩, ⟨h34, h35, h36, h37, h38, h39⟩,
    ⟨h45, h46, h47, h48, h49⟩, ⟨h56, h57, h58, h59⟩, ⟨h67, h68, h69⟩, ⟨h78, h79⟩, h89⟩ :=
    hdistinct
  · rfl
  · rfl
  · rfl
  · simp [hashValue]
  · simp [hashValue, h12]
  · simp [hashValue, h13, h23]
  · simp [hashValue, h14, h24, h34]
  · simp [hashValue, h15, h25, h35, h45]
  · simp [hashValue, h16, h26, h36, h46, h56]
  · simp [hashValue, h17, h27, h37, h47, h57, h67]
  · simp [hashValue, h18, h28, h38, h48, h58, h68, h78]
  · simp [hashValue, h19, h29, h39, h49, h59, h69, h79, h89]
  · intro role hrole
    simp only [Roles.ids, List.mem_cons, List.not_mem_nil, or_false, not_or] at hrole
    obtain ⟨g1, g2, g3, g4, g5, g6, g7, g8, g9⟩ := hrole
    simp [hashValue, Ne.symm g1, Ne.symm g2, Ne.symm g3, Ne.symm g4, Ne.symm g5, Ne.symm g6,
      Ne.symm g7, Ne.symm g8, Ne.symm g9]

/-- C17 at a concrete input: the sample role identifiers. -/
theorem roleNames_table_witness :
    sampleRoles.ids.Nodup ∧ (roleNames sampleRoles ViewModel.new).length = 9 ∧
    hashValue (roleNames sampleRoles twoTabs) 265 = some "keyValue" :=
  ⟨by decide,
   (roleNames_table sampleRoles ViewModel.new (by decide)).1,
   (roleNames_table sampleRoles twoTabs (by decide)).2.2.2.2.2.2.2.2.2.2.2.1⟩

end ViewModel

end ValueEditor

/-! ## The new-key workflow -/

namespace ValueEditor

namespace QString

/-- Text without `%` is read as plain characters, and the scan goes on after it. -/
theorem scanFrom_plain_append :
    ∀ (l t : List Char), '%' ∉ l →
      scanFrom Scan.normal (l ++ t) = l.map Piece.text ++ scanFrom Scan.normal t
  | [], t, _ => rfl
  | c :: l, t, h => by
      have hc : c ≠ '%' := fun heq => h (by simp [heq])
      have hl : '%' ∉ l := fun hmem => h (List.mem_cons_of_mem c hmem)
      simp [scanFrom, hc, scanFrom_plain_append l t hl]

/-- Plain characters in front do not change the lowest place-marker number. -/
theorem lowestMarker_text_append (l : List Char) (ps : List Piece) :
    lowestMarker (l.map Piece.text ++ ps) = lowestMarker ps := by
  induction l with
  | nil => rfl
  | cons c l ih => simpa [lowestMarker] using ih

/-- Plain characters are left as they are by a replacement. -/
theorem flatten_replace_text (lowest : Nat) (plain localised : List Char) (l : List Char) :
    ((l.map Piece.text).map (Piece.replace lowest plain localised)).flatten = l := by
  induction l with
  | nil => rfl
  | cons c l ih => simpa [Piece.replace] using ih

/-- The first `arg` of `dbId`: the name takes the place of `%1`, whatever the name is. -/
theorem arg_template (name : String) :
    (arg "%1:db%2" name).data = name.data ++ [':', 'd', 'b', '%', '2'] := by
  simp [arg, argChars, scanFrom, lowestMarker, digitValue, markerStart, Piece.replace]

/-- The second `arg` of `dbId` when the name has no `%`: the number takes the place of `%2`. -/
theorem argChars_after_plain_name (l plain localised : List Char) (h : '%' ∉ l) :
    argChars (l ++ [':', 'd', 'b', '%', '2']) plain localised = l ++ [':', 'd', 'b'] ++ plain := by
  have hscan : scanFrom Scan.normal (l ++ [':', 'd', 'b', '%', '2'])
      = l.map Piece.text ++
        [Piece.text ':', Piece.text 'd', Piece.text 'b', Piece.marker 2 false ['%', '2']] := by
    rw [scanFrom_plain_append l _ h]
    simp [scanFrom, digitValue, markerStart]
  unfold argChars
  rw [hscan, lowestMarker_text_append]
  simp only [lowestMarker]
  rw [List.map_append, List.flatten_append, flatten_replace_text]
  simp [Piece.replace]

end QString

namespace ViewModel

/-- The label built by `openNewKeyDialog` for a connection name without `%`. -/
theorem dbId_of_plain_name (name : String) (dbIndex : Int) (localised : String)
    (h : '%' ∉ name.data) :
    dbId name dbIndex localised = name ++ ":db" ++ toString dbIndex := by
  unfold dbId QString.argInt
  rw [QString.arg_template, QString.argChars_after_plain_name _ _ _ h]
  apply String.ext
  simp [String.data_append]

/-- What one call of `openNewKeyDialog` does: with a null connection or a negative database
index nothing changes and nothing is emitted; otherwise the pending request becomes the pair of
the call and exactly one `newKeyDialog` signal is emitted. -/
theorem openNewKeyDialog_effect (configName : Nat → String) (localeNumber : Int → String)
    (connection : ConnectionPtr) (dbIndex : Int) (keyText : String) (s : ViewModel) :
    ((connection = none ∨ dbIndex < 0) →
      s.openNewKeyDialog configName localeNumber connection dbIndex keyText = (s, [])) ∧
    (∀ c : Nat, connection = some c → 0 ≤ dbIndex →
      s.openNewKeyDialog configName localeNumber connection dbIndex keyText
        = ({ s with m_newKeyRequest := (some c, dbIndex) },
           [Event.newKeyDialog (dbId (configName c) dbIndex (localeNumber dbIndex)) keyText])) := by
  constructor
  · intro h
    rcases h with h | h
    · subst h
      simp [openNewKeyDialog]
    · cases connection <;> simp [openNewKeyDialog, h]
  · intro c hc h0
    subst hc
    have hn : ¬ (dbIndex < 0) := by omega
    simp [openNewKeyDialog, hn]

/-- Whether a call of `openNewKeyDialog` passes the guard, which is when it emits its signal. -/
theorem openNewKeyDialog_emits_iff (configName : Nat → String) (localeNumber : Int → String)
    (call : NewKeyCall) (s : ViewModel) :
    (s.openNewKeyDialog configName localeNumber call.connection call.dbIndex call.keyText).2 ≠ []
      ↔ call.connection ≠ none ∧ 0 ≤ call.dbIndex := by
  obtain ⟨hskip, hdo⟩ :=
    openNewKeyDialog_effect configName localeNumber call.connection call.dbIndex call.keyText s
  constructor
  · intro hne
    by_contra hcon
    have hbad : call.connection = none ∨ call.dbIndex < 0 := by
      by_cases h1 : call.connection = none
      · exact Or.inl h1
      · right
        by_contra h2
        exact hcon ⟨h1, by omega⟩
    rw [hskip hbad] at hne
    exact hne rfl
  · intro ⟨h1, h2⟩
    obtain ⟨c, hc⟩ := Option.ne_none_iff_exists'.1 h1
    rw [hdo c hc h2]
    simp

end ViewModel

end ValueEditor

namespace ValueEditor

namespace ViewModel

/-- The most recent accepted call of a sequence that starts with an accepted call. -/
theorem mostRecentRequest_cons_accepted (call : NewKeyCall) (rest : List NewKeyCall)
    (initial : ConnectionPtr × Int) (h : passesGuard call = true) :
    mostRecentRequest (call :: rest) initial
      = mostRecentRequest rest (call.connection, call.dbIndex) := by
  unfold mostRecentRequest
  rw [List.filter_cons_of_pos h, List.getLast?_cons]
  cases (rest.filter passesGuard).getLast? <;> rfl

/-- The most recent accepted call of a sequence that starts with a rejected call. -/
theorem mostRecentRequest_cons_rejected (call : NewKeyCall) (rest : List NewKeyCall)
    (initial : ConnectionPtr × Int) (h : passesGuard call = false) :
    mostRecentRequest (call :: rest) initial = mostRecentRequest rest initial := by
  unfold mostRecentRequest
  rw [List.filter_cons_of_neg (by simp [h])]

/-- What a sequence of `openNewKeyDialog` calls does: the pending request ends up as the pair
of the most recent call that passed the guard (it keeps its old value when none did), nothing
else changes, and the signals emitted are those of the calls that passed the guard, one each,
in call order. -/
theorem openNewKeyDialogs_effect (configName : Nat → String) (localeNumber : Int → String) :
    ∀ (calls : List NewKeyCall) (s : ViewModel),
      (s.openNewKeyDialogs configName localeNumber calls).1
        = { s with m_newKeyRequest := mostRecentRequest calls s.m_newKeyRequest } ∧
      (s.openNewKeyDialogs configName localeNumber calls).2
        = (calls.filter passesGuard).map (signalOf configName localeNumber)
  | [], s => ⟨rfl, rfl⟩
  | call :: rest, s => by
      obtain ⟨hskip, hdo⟩ := openNewKeyDialog_effect configName localeNumber
        call.connection call.dbIndex call.keyText s
      by_cases hacc : passesGuard call = true
      · have hparts : call.connection.isSome = true ∧ 0 ≤ call.dbIndex := by
          simpa [passesGuard] using hacc
        obtain ⟨c, hc⟩ := Option.isSome_iff_exists.1 hparts.1
        have hfirst := hdo c hc hparts.2
        obtain ⟨ih1, ih2⟩ := openNewKeyDialogs_effect configName localeNumber rest
          { s with m_newKeyRequest := (some c, call.dbIndex) }
        have hsig : signalOf configName localeNumber call
            = Event.newKeyDialog
                (dbId (configName c) call.dbIndex (localeNumber call.dbIndex)) call.keyText := by
          simp [signalOf, hc]
        constructor
        · simp only [openNewKeyDialogs, hfirst, ih1]
          rw [mostRecentRequest_cons_accepted call rest _ hacc, hc]
        · simp only [openNewKeyDialogs, hfirst, ih2]
          rw [List.filter_cons_of_pos hacc, List.map_cons, hsig]
          rfl
      · have hrej : passesGuard call = false := by simpa using hacc
        have hbad : call.connection = none ∨ call.dbIndex < 0 := by
          by_cases h1 : call.connection = none
          · exact Or.inl h1
          · right
            by_contra h2
            apply hacc
            have hsome : call.connection.isSome = true := by
              cases hcon : call.connection with
              | none => exact absurd hcon h1
              | some c => rfl
            simp [passesGuard, hsome]
            omega
        have hfirst := hskip hbad
        obtain ⟨ih1, ih2⟩ := openNewKeyDialogs_effect configName localeNumber rest s
        constructor
        · simp only [openNewKeyDialogs, hfirst, ih1]
          rw [mostRecentRequest_cons_rejected call rest _ hrej]
        · simp only [openNewKeyDialogs, hfirst, ih2]
          rw [List.filter_cons_of_neg (by simp [hrej])]
          rfl

/-- After any sequence of `openNewKeyDialog` calls, `addKey(name, type, row)` hands the Key
Factory the connection and database index of the most recent call that passed the guard (that
is, emitted its signal), together with the caller's name, type and row unchanged; `addKey`
itself changes nothing. -/
theorem addKey_uses_most_recent_request (configName : Nat → String)
    (localeNumber : Int → String) (calls : List NewKeyCall) (s : ViewModel)
    (keyName keyType : String) (row : List (String × String)) :
    ((s.openNewKeyDialogs configName localeNumber calls).1.addKey keyName keyType row).2
      = [Event.addKey (mostRecentRequest calls s.m_newKeyRequest).1 keyName
          (mostRecentRequest calls s.m_newKeyRequest).2 keyType row] ∧
    ((s.openNewKeyDialogs configName localeNumber calls).1.addKey keyName keyType row).1
      = (s.openNewKeyDialogs configName localeNumber calls).1 ∧
    (s.openNewKeyDialogs configName localeNumber calls).1.m_valueModels = s.m_valueModels ∧
    (s.openNewKeyDialogs configName localeNumber calls).1.m_currentTabIndex
      = s.m_currentTabIndex := by
  obtain ⟨h1, _⟩ := openNewKeyDialogs_effect configName localeNumber calls s
  rw [h1]
  exact ⟨rfl, rfl, rfl, rfl⟩

/-- C15, the code at a connection whose configured name is `%1`, with database index 5: the
call passes the guard, stores the pair and emits one signal, but the label of the signal is
`5:db%2`, not `%1:db5`: the second `arg` replaces the lowest-numbered place marker left in the
string, which is the `%1` that came in with the name. -/
theorem openNewKeyDialog_label_of_marker_name :
    (ViewModel.new.openNewKeyDialog (fun _ => "%1") (fun n => toString n)
        (some 1) 5 "user:").1.m_newKeyRequest = (some 1, 5) ∧
    (ViewModel.new.openNewKeyDialog (fun _ => "%1") (fun n => toString n)
        (some 1) 5 "user:").2 = [Event.newKeyDialog "5:db%2" "user:"] ∧
    dbId "%1" 5 "5" ≠ "%1" ++ ":db" ++ toString (5 : Int) ∧
    dbId "local" 5 "5" = "local" ++ ":db" ++ toString (5 : Int) := by
  decide

end ViewModel

end ValueEditor

/-! ## Value editors -/

namespace ValueEditor

namespace ViewModel

/-- What `getValue` does at a valid row whose model has no child yet: it creates the editor. -/
theorem getValue_creates (s : ViewModel) (o : Objects) (i : Nat) (m : Nat)
    (hrow : s.m_valueModels[i]? = some (some m)) (hnone : o.children m = []) :
    s.getValue (i : Int) o =
      { value := some o.nextObject, objects := (newValueViewModel m o).2,
        exit := Exit.returned } := by
  obtain ⟨hvalid, hat⟩ := itemAt_of_getElem? s i m hrow
  unfold getValue
  simp [hvalid, hat, hnone, newValueViewModel]

/-- What `getValue` does at a valid row whose model has a child: it returns the first child and
creates nothing. -/
theorem getValue_reuses (s : ViewModel) (o : Objects) (i : Nat) (m : Nat)
    (hrow : s.m_valueModels[i]? = some (some m)) (first : Nat) (others : List Nat)
    (hsome : o.children m = first :: others) :
    s.getValue (i : Int) o = { value := some first, objects := o, exit := Exit.returned } := by
  obtain ⟨hvalid, hat⟩ := itemAt_of_getElem? s i m hrow
  unfold getValue
  simp [hvalid, hat, hsome]

/-- After the first of `n >= 1` calls in a row the object trees no longer change. -/
theorem getValueTimes_succ (s : ViewModel) (i : Nat) (m : Nat)
    (hrow : s.m_valueModels[i]? = some (some m)) :
    ∀ (n : Nat) (o : Objects),
      getValueTimes (i : Int) s (n + 1) o = (s.getValue (i : Int) o).objects
  | 0, _ => rfl
  | n + 1, o => by
      have ih := getValueTimes_succ s i m hrow n (s.getValue (i : Int) o).objects
      show getValueTimes (i : Int) s (n + 1) (s.getValue (i : Int) o).objects = _
      rw [ih]
      cases hch : o.children m with
      | nil =>
        rw [getValue_creates s o i m hrow hch]
        have hnext : (newValueViewModel m o).2.children m = o.nextObject :: [] := by
          simp [newValueViewModel, hch]
        rw [getValue_reuses s _ i m hrow o.nextObject [] hnext]
      | cons first others =>
        rw [getValue_reuses s o i m hrow first others hch]
        rw [getValue_reuses s o i m hrow first others hch]

end ViewModel

end ValueEditor

namespace ValueEditor

namespace ViewModel

/-- C16: for every valid row `i` (holding model `m`), two calls `getValue(i)` in a row return
the same editor handle, which is the first child of `m`, and the second call creates nothing;
after any number of `getValue(i)` calls at most one object has been created, so a model that
had at most one child still has at most one; and for every out-of-range `i`, `getValue(i)`
returns null and creates nothing. -/
theorem getValue_returns_one_editor (s : ViewModel) (o : Objects) (i : Nat) (m : Nat)
    (hrow : s.m_valueModels[i]? = some (some m)) :
    (∃ editor : Nat,
      (s.getValue (i : Int) o).value = some editor ∧
      (s.getValue (i : Int) (s.getValue (i : Int) o).objects).value = some editor ∧
      ((s.getValue (i : Int) o).objects.children m)[0]? = some editor) ∧
    (s.getValue (i : Int) o).exit = Exit.returned ∧
    (s.getValue (i : Int) (s.getValue (i : Int) o).objects).objects
      = (s.getValue (i : Int) o).objects ∧
    (∀ n : Nat, (getValueTimes (i : Int) s n o).nextObject ≤ o.nextObject + 1) ∧
    (∀ n : Nat, (o.children m).length ≤ 1 →
      ((getValueTimes (i : Int) s n o).children m).length ≤ 1) ∧
    (∀ j : Int, j < 0 ∨ s.rowCount ≤ j →
      (s.getValue j o).value = none ∧ (s.getValue j o).objects = o ∧
      (s.getValue j o).exit = Exit.returned) := by
  have hstep : ∀ n : Nat, getValueTimes (i : Int) s (n + 1) o = (s.getValue (i : Int) o).objects :=
    fun n => getValueTimes_succ s i m hrow n o
  cases hch : o.children m with
  | nil =>
    have hfirst := getValue_creates s o i m hrow hch
    have hnext : (newValueViewModel m o).2.children m = o.nextObject :: [] := by
      simp [newValueViewModel, hch]
    have hsecond := getValue_reuses s (newValueViewModel m o).2 i m hrow o.nextObject [] hnext
    refine ⟨⟨o.nextObject, ?_, ?_, ?_⟩, ?_, ?_, ?_, ?_, ?_⟩
    · rw [hfirst]
    · rw [hfirst, hsecond]
    · rw [hfirst, hnext]
      rfl
    · rw [hfirst]
    · rw [hfirst, hsecond]
    · intro n
      cases n with
      | zero => exact Nat.le_succ _
      | succ n =>
        rw [hstep n, hfirst]
        exact Nat.le_refl _
    · intro n _
      cases n with
      | zero =>
        show (o.children m).length ≤ 1
        rw [hch]
        exact Nat.zero_le 1
      | succ n =>
        rw [hstep n, hfirst, hnext]
        exact Nat.le_refl _
    · intro j hj
      have hinvalid := isIndexValid_of_out_of_range s j hj
      simp [getValue, hinvalid]
  | cons first others =>
    have hfirst := getValue_reuses s o i m hrow first others hch
    refine ⟨⟨first, ?_, ?_, ?_⟩, ?_, ?_, ?_, ?_, ?_⟩
    · rw [hfirst]
    · rw [hfirst, hfirst]
    · rw [hfirst, hch]
      simp
    · rw [hfirst]
    · rw [hfirst, hfirst]
    · intro n
      cases n with
      | zero => exact Nat.le_succ _
      | succ n =>
        rw [hstep n, hfirst]
        exact Nat.le_succ _
    · intro n hlen
      cases n with
      | zero =>
        show (o.children m).length ≤ 1
        rw [hch]
        exact hlen
      | succ n =>
        rw [hstep n, hfirst]
        show (o.children m).length ≤ 1
        rw [hch]
        exact hlen
    · intro j hj
      have hinvalid := isIndexValid_of_out_of_range s j hj
      simp [getValue, hinvalid]

/-- C16 at a concrete input: row 1 of two tabs, no model having a child yet. -/
theorem getValue_returns_one_editor_witness :
    twoTabs.m_valueModels[1]? = some (some 11) ∧
    (twoTabs.getValue 1 noObjects).value = some 100 ∧
    (twoTabs.getValue 1 (twoTabs.getValue 1 noObjects).objects).value = some 100 ∧
    (getValueTimes 1 twoTabs 5 noObjects).nextObject ≤ noObjects.nextObject + 1 ∧
    (twoTabs.getValue 2 noObjects).value = none :=
  ⟨by decide, by decide, by decide,
   (getValue_returns_one_editor twoTabs noObjects 1 11 (by decide)).2.2.2.1 5,
   ((getValue_returns_one_editor twoTabs noObjects 1 11 (by decide)).2.2.2.2.2 2
      (Or.inr (by decide))).1⟩

end ViewModel

end ValueEditor
